import Mathlib

set_option linter.unusedVariables false
set_option maxRecDepth 16384

namespace XenoLvb

/-! # Shallow embedding of `src/xeno_lvb.py` (LVB container decoder)

Bytes are modelled as `Nat` values; a Python `bytes` object is a `List Nat`
whose elements are below 256 (the `Lvb` constructor's `bytes(data)` call
validates this, modelled by the `valueError` guard of `Lvb.init`).  Python
slices `data[a:b]` truncate silently, which `pySlice` reproduces.
`struct.unpack` errors on short data are modelled by `Option`-returning
primitive readers, turned into the `shortRead` error by `ofOpt`.  IEEE
floats are kept as their raw 4-byte little-endian groups: no property in
play depends on float arithmetic, only on which bytes each matrix cell was
decoded from.  Python exceptions become `Except DecodeError`; the fueled
walker `walkSections` returns `none` when the section walk has not
finished within the given fuel, so non-termination of the source's
`while` loop is expressible.  Entry objects are mutated and aliased in the
source (the lookup dicts hold the same objects as the section lists), so
the dicts are modelled as maps to positions `(sectionIndex, entryIndex)`
into the single owning list of sections, and mutation is functional update
at a position. -/

/-- Python slice `data[a:b]` for nonnegative bounds: truncating, never failing. -/
def pySlice (data : List Nat) (a b : Nat) : List Nat := (data.take b).drop a

/-- `struct.unpack('<I', data[off:off+4])[0]`: little-endian u32; `none` models
`struct.error` when fewer than 4 bytes are available. -/
def u32? (data : List Nat) (off : Nat) : Option Nat :=
  match (data.drop off).take 4 with
  | [b0, b1, b2, b3] => some (b0 + 0x100 * b1 + 0x10000 * b2 + 0x1000000 * b3)
  | _ => none

/-- `struct.unpack('<H', data[off:off+2])[0]`. -/
def u16? (data : List Nat) (off : Nat) : Option Nat :=
  match (data.drop off).take 2 with
  | [b0, b1] => some (b0 + 0x100 * b1)
  | _ => none

/-- `struct.unpack('<f', data[off:off+4])[0]`, kept as the raw 4-byte group. -/
def f32? (data : List Nat) (off : Nat) : Option (List Nat) :=
  match (data.drop off).take 4 with
  | [b0, b1, b2, b3] => some [b0, b1, b2, b3]
  | _ => none

/-- `b"INFO"`. -/
def infoMagic : List Nat := [0x49, 0x4E, 0x46, 0x4F]

/-- `b"XFRM"`. -/
def xfrmMagic : List Nat := [0x58, 0x46, 0x52, 0x4D]

/-- `b"DEBI"`. -/
def debiMagic : List Nat := [0x44, 0x45, 0x42, 0x49]

/-- `b"STRG"`. -/
def strgMagic : List Nat := [0x53, 0x54, 0x52, 0x47]

/-- `SPECIAL_MAGIC = [b"INFO", b"XFRM", b"DEBI", b"STRG"]`. -/
def SPECIAL_MAGIC : List (List Nat) := [infoMagic, xfrmMagic, debiMagic, strgMagic]

/-- The `b"LVLB"` signature asserted at offset 0 (`[0x4C, 0x56, 0x4C, 0x42]`). -/
def lvbMagic : List Nat := [0x4C, 0x56, 0x4C, 0x42]

/-- The Python exceptions the decoder can raise, under the names the
specification's error taxonomy gives them.  `shortRead` is `struct.error`
(a fixed-width read on a too-short slice); `malformedHeader` the failed
signature `assert`; `valueError` a non-byte element rejected by
`bytes(data)`; `missingRequiredSection` the `StopIteration` of the
`next(filter(...))` section lookups; `unresolvedReference` an `IndexError`
from out-of-range list indexing during cross-referencing;
`offsetOutOfRange` the `ValueError` of `bytes.index(0)` when no terminator
exists at or after the offset; `invalidEncoding` a `UnicodeDecodeError`;
and `typeError` an `AttributeError` (a field access on a payload of the
wrong variant — unreachable for sections decoded by the built-in mappers). -/
inductive DecodeError where
  | shortRead
  | malformedHeader
  | valueError
  | missingRequiredSection
  | unresolvedReference
  | offsetOutOfRange
  | invalidEncoding
  | typeError
deriving DecidableEq, Repr

/-- Turn a primitive reader's result into the decoder's error monad. -/
def ofOpt (o : Option α) : Except DecodeError α :=
  match o with
  | some a => .ok a
  | none => .error .shortRead

/-- Is `b` a UTF-8 continuation byte? -/
def utf8Cont (b : Nat) : Bool := decide (0x80 ≤ b ∧ b < 0xC0)

/-- Strict UTF-8 decoding of a byte list into characters, as Python's
`bytes.decode('utf-8')`: rejects stray or missing continuation bytes,
overlong encodings, surrogates and code points above `U+10FFFF`. -/
def utf8Decode : List Nat → Option (List Char)
  | [] => some []
  | b :: rest =>
    if b < 0x80 then
      (utf8Decode rest).map fun cs => Char.ofNat b :: cs
    else if b < 0xC2 then none
    else if b < 0xE0 then
      match rest with
      | c1 :: rest1 =>
        if utf8Cont c1 then
          (utf8Decode rest1).map fun cs => Char.ofNat ((b - 0xC0) * 0x40 + (c1 - 0x80)) :: cs
        else none
      | [] => none
    else if b < 0xF0 then
      match rest with
      | c1 :: rest1 =>
        match rest1 with
        | c2 :: rest2 =>
          if utf8Cont c1 ∧ utf8Cont c2 ∧ (b ≠ 0xE0 ∨ 0xA0 ≤ c1) ∧ (b ≠ 0xED ∨ c1 < 0xA0) then
            (utf8Decode rest2).map fun cs =>
              Char.ofNat ((b - 0xE0) * 0x1000 + (c1 - 0x80) * 0x40 + (c2 - 0x80)) :: cs
          else none
        | [] => none
      | [] => none
    else if b < 0xF5 then
      match rest with
      | c1 :: rest1 =>
        match rest1 with
        | c2 :: rest2 =>
          match rest2 with
          | c3 :: rest3 =>
            if utf8Cont c1 ∧ utf8Cont c2 ∧ utf8Cont c3 ∧ (b ≠ 0xF0 ∨ 0x90 ≤ c1) ∧
                (b ≠ 0xF4 ∨ c1 < 0x90) then
              (utf8Decode rest3).map fun cs =>
                Char.ofNat ((b - 0xF0) * 0x40000 + (c1 - 0x80) * 0x1000 + (c2 - 0x80) * 0x40 +
                  (c3 - 0x80)) :: cs
            else none
          | [] => none
        | [] => none
      | [] => none
    else none

/-- Minimal UTF-8 encoding of one character (the reference form the
round-trip property of `Strings.read` is stated against). -/
def utf8EncodeChar (c : Char) : List Nat :=
  if c.toNat < 0x80 then [c.toNat]
  else if c.toNat < 0x800 then [0xC0 + c.toNat / 0x40, 0x80 + c.toNat % 0x40]
  else if c.toNat < 0x10000 then
    [0xE0 + c.toNat / 0x1000, 0x80 + (c.toNat / 0x40) % 0x40, 0x80 + c.toNat % 0x40]
  else
    [0xF0 + c.toNat / 0x40000, 0x80 + (c.toNat / 0x1000) % 0x40, 0x80 + (c.toNat / 0x40) % 0x40,
     0x80 + c.toNat % 0x40]

/-- UTF-8 encoding of a character list. -/
def utf8Encode (t : List Char) : List Nat := (t.map utf8EncodeChar).flatten

/-- The decoded payload variants: the classes `Info`, `InfoLegacy`, `Xform`,
`Strings`, `Debug`, `Default` of the source, as one closed sum.  Field names
follow the source attributes; `Xform.matrix` keeps each of the 16 floats as
its raw little-endian 4-byte group. -/
inductive Payload where
  | info (bdat_id xfrm_idx shape sequential_id hash_id : Nat)
  | infoLegacy (name_id xfrm_idx shape : Nat)
  | xform (matrix : List (List Nat))
  | strings (buf : List Nat)
  | debug (gimmick_id type_id string_id parent_id : Nat)
  | default (data : List Nat)
deriving DecidableEq, Repr

/-- The `Entry` class: a decoded payload (`_mapped`) plus the fields set by
cross-referencing (`_info`, `_xfrm`, `_name`), all `None` at construction. -/
structure Entry where
  mapped : Payload
  info : Option Payload := none
  xfrm : Option Payload := none
  name : Option (List Char) := none
deriving DecidableEq, Repr

/-- The `Section` class: the six header fields it stores plus its entries. -/
structure Section where
  magic : List Nat
  size : Nat
  version : Nat
  count : Nat
  entry_size : Nat
  info_idx : Nat
  entries : List Entry
deriving DecidableEq, Repr

/-- A payload decoder: one of the section classes applied to an entry slice. -/
def Mapper : Type := List Nat → Except DecodeError Payload

/-- `Info.__init__`: `bdat_id = u32(entry)`, `xfrm_idx = u32(entry[4:])`,
`shape = u16(entry[8:])`, `sequential_id = u16(entry[10:])`,
`hash_id = u32(entry[12:])`. -/
def Info : Mapper := fun entry => do
  let bdat_id ← ofOpt (u32? entry 0)
  let xfrm_idx ← ofOpt (u32? entry 4)
  let shape ← ofOpt (u16? entry 8)
  let sequential_id ← ofOpt (u16? entry 10)
  let hash_id ← ofOpt (u32? entry 12)
  .ok (.info bdat_id xfrm_idx shape sequential_id hash_id)

/-- `InfoLegacy.__init__`: `name_id = u32(entry)`, `xfrm_idx = u32(entry[8:])`,
`shape = u32(entry[12:])`. -/
def InfoLegacy : Mapper := fun entry => do
  let name_id ← ofOpt (u32? entry 0)
  let xfrm_idx ← ofOpt (u32? entry 8)
  let shape ← ofOpt (u32? entry 12)
  .ok (.infoLegacy name_id xfrm_idx shape)

/-- `Xform.__init__`: `matrix = [f32(entry[i:]) for i in range(0, 64, 4)]`. -/
def Xform : Mapper := fun entry => do
  let matrix ← (List.range 16).mapM fun k => ofOpt (f32? entry (4 * k))
  .ok (.xform matrix)

/-- `Strings.__init__`: stores the byte blob unchanged. -/
def Strings : Mapper := fun entry => .ok (.strings entry)

/-- `Debug.__init__`: four u32 fields at offsets 0, 4, 8, 12. -/
def Debug : Mapper := fun entry => do
  let gimmick_id ← ofOpt (u32? entry 0)
  let type_id ← ofOpt (u32? entry 4)
  let string_id ← ofOpt (u32? entry 8)
  let parent_id ← ofOpt (u32? entry 12)
  .ok (.debug gimmick_id type_id string_id parent_id)

/-- `Default.__init__`: stores the raw slice unchanged. -/
def Default : Mapper := fun entry => .ok (.default entry)

/-- The external extension registry `get_ext_mapper` (module `ext`, not part
of this repository): a plugin lookup keyed by magic and format flag. -/
def ExtRegistry : Type := List Nat → Bool → Option Mapper

/-- An extension registry with no plugins registered. -/
def extNone : ExtRegistry := fun _ _ => none

/-- `mapper_registry(magic, xc3)`: the built-in dict first (`INFO` mapping to
`Info` when `xc3` else `InfoLegacy`), then `get_ext_mapper(magic, xc3)`, then
`Default`. -/
def mapper_registry (ext : ExtRegistry) (magic : List Nat) (xc3 : Bool) : Mapper :=
  if magic = infoMagic then (if xc3 then Info else InfoLegacy)
  else if magic = xfrmMagic then Xform
  else if magic = debiMagic then Debug
  else if magic = strgMagic then Strings
  else
    match ext magic xc3 with
    | some m => m
    | none => Default

/-- The entry list comprehension of `Section.__init__` for non-`STRG`
sections: entry `i` is the mapper applied to
`data[entry_start + i*entry_size : entry_start + (i+1)*entry_size]`;
the count (`n`) entries are produced for `i, i+1, ...` in order. -/
def decodeEntries (mapper : Mapper) (data : List Nat) (entry_start entry_size : Nat) :
    Nat → Nat → Except DecodeError (List Entry)
  | _, 0 => .ok []
  | i, n + 1 => do
    let p ← mapper (pySlice data (entry_start + i * entry_size) (entry_start + (i + 1) * entry_size))
    let rest ← decodeEntries mapper data entry_start entry_size (i + 1) n
    .ok ({ mapped := p } :: rest)

/-- `Section.__init__(data, xc3, start)`: read the 32-byte section header,
resolve the mapper from the magic, then decode either `count` fixed-size
entries or, for `STRG`, the single blob entry spanning
`data[start+32 : start+size]`. -/
def Section.init (ext : ExtRegistry) (data : List Nat) (xc3 : Bool) (start : Nat) :
    Except DecodeError Section := do
  let magic := pySlice data start (start + 4)
  let mapper := mapper_registry ext magic xc3
  let size ← ofOpt (u32? data (start + 4))
  let version ← ofOpt (u32? data (start + 8))
  let count ← ofOpt (u32? data (start + 12))
  let entry_size ← ofOpt (u32? data (start + 16))
  let info_idx ← ofOpt (u32? data (start + 20))
  let entry_start := start + 32
  let entries ←
    if magic ≠ strgMagic then
      decodeEntries mapper data entry_start entry_size 0 count
    else do
      let p ← mapper (pySlice data entry_start (start + size))
      .ok [{ mapped := p }]
  .ok { magic := magic, size := size, version := version, count := count,
        entry_size := entry_size, info_idx := info_idx, entries := entries }

/-- The section walk of `Lvb.__init__`:
`while start < file_size - 32: section = Section(data, xc3, start);
sections.append(section); start += section.size()`.  The walk is fueled;
`none` means it did not finish within `fuel` iterations (the source loop
would still be running). -/
def walkSections (ext : ExtRegistry) (xc3 : Bool) (data : List Nat) (file_size : Nat) :
    Nat → Nat → List Section → Option (Except DecodeError (List Section))
  | 0, _, _ => none
  | fuel + 1, start, sections =>
    if start < file_size - 32 then
      match Section.init ext data xc3 start with
      | .error e => some (.error e)
      | .ok sec => walkSections ext xc3 data file_size fuel (start + sec.size) (sections ++ [sec])
    else
      some (.ok sections)

/-- Keys of `gimmick_map`: strings in the legacy format, hash ids when
modern. -/
inductive GKey where
  | str (s : List Char)
  | num (n : Nat)
deriving DecidableEq, Repr

/-- Python `dict.get`, with the dict represented as the chronological list of
its assignments: the value of the most recent assignment to the key. -/
def dictGet (m : List (GKey × α)) (k : GKey) : Option α :=
  (m.reverse.find? fun kv => decide (kv.1 = k)).map (·.2)

/-- `entry._info.xfrm_idx` (an `AttributeError` on other variants). -/
def Payload.xfrmIdx? : Payload → Except DecodeError Nat
  | .info _ x _ _ _ => .ok x
  | .infoLegacy _ x _ => .ok x
  | _ => .error .typeError

/-- `entry._info.hash_id`. -/
def Payload.hashId? : Payload → Except DecodeError Nat
  | .info _ _ _ _ h => .ok h
  | _ => .error .typeError

/-- `entry._info.bdat_id`. -/
def Payload.bdatId? : Payload → Except DecodeError Nat
  | .info b _ _ _ _ => .ok b
  | _ => .error .typeError

/-- `entry._info.name_id`. -/
def Payload.nameId? : Payload → Except DecodeError Nat
  | .infoLegacy n _ _ => .ok n
  | _ => .error .typeError

/-- `Strings.read(offset)`: `data = buf[offset:]; n = data.index(0);
data[:n].decode('utf-8')`.  A missing terminator (including an offset at or
past the end of the blob) raises `ValueError` (`offsetOutOfRange`); invalid
UTF-8 raises `UnicodeDecodeError` (`invalidEncoding`). -/
def Strings.read (buf : List Nat) (offset : Nat) : Except DecodeError (List Char) :=
  let data := buf.drop offset
  let pre := data.takeWhile fun b => decide (b ≠ 0)
  if pre.length = data.length then
    .error .offsetOutOfRange
  else
    match utf8Decode pre with
    | some s => .ok s
    | none => .error .invalidEncoding

/-- One non-special section's slice of the cross-reference loop of
`Lvb.__init__` (`for i, entry in enumerate(sec._entries)` at info base
`base`, the section sitting at index `si` of the walked list):
sets `entry._info` from `info.entry(base + i)`, `entry._xfrm` from
`xfrm.entry(entry._info.xfrm_idx)` and, per format, records the entry's
position under its hash and bdat ids (modern) or reads and records its
name (legacy).  Returns the updated entries plus the two dicts'
chronological assignment lists. -/
def resolveEntries (xc3 : Bool) (infoEntries xfrmEntries : List Entry) (strings : List Nat)
    (base si : Nat) :
    Nat → List Entry →
      Except DecodeError (List Entry × List (GKey × Nat × Nat) × List (Nat × Nat × Nat))
  | _, [] => .ok ([], [], [])
  | i, e :: es => do
    let infoEntry ← match infoEntries[base + i]? with
      | some ie => Except.ok ie
      | none => Except.error .unresolvedReference
    let infoP := infoEntry.mapped
    let xi ← infoP.xfrmIdx?
    let xfrmEntry ← match xfrmEntries[xi]? with
      | some xe => Except.ok xe
      | none => Except.error .unresolvedReference
    let e1 : Entry := { e with info := some infoP, xfrm := some xfrmEntry.mapped }
    if xc3 then do
      let h ← infoP.hashId?
      let bd ← infoP.bdatId?
      let (es1, g, bm) ← resolveEntries xc3 infoEntries xfrmEntries strings base si (i + 1) es
      .ok (e1 :: es1, (GKey.num h, (si, i)) :: g, (bd, (si, i)) :: bm)
    else do
      let nid ← infoP.nameId?
      let nm ← Strings.read strings nid
      let e2 : Entry := { e1 with name := some nm }
      let (es1, g, bm) ← resolveEntries xc3 infoEntries xfrmEntries strings base si (i + 1) es
      .ok (e2 :: es1, (GKey.str nm, (si, i)) :: g, bm)

/-- The outer cross-reference loop `for sec in sections:` — sections whose
magic is in `SPECIAL_MAGIC` are skipped unchanged; the rest have their
entries resolved by `resolveEntries`. -/
def resolveSections (xc3 : Bool) (infoEntries xfrmEntries : List Entry) (strings : List Nat) :
    Nat → List Section →
      Except DecodeError (List Section × List (GKey × Nat × Nat) × List (Nat × Nat × Nat))
  | _, [] => .ok ([], [], [])
  | si, s :: ss =>
    if s.magic ∈ SPECIAL_MAGIC then do
      let (ss1, g, bm) ← resolveSections xc3 infoEntries xfrmEntries strings (si + 1) ss
      .ok (s :: ss1, g, bm)
    else do
      let (es1, g1, b1) ← resolveEntries xc3 infoEntries xfrmEntries strings s.info_idx si 0
        s.entries
      let (ss1, g2, b2) ← resolveSections xc3 infoEntries xfrmEntries strings (si + 1) ss
      .ok ({ s with entries := es1 } :: ss1, g1 ++ g2, b1 ++ b2)

/-- Functional update at one list position (the effect of mutating an
aliased object held at that position). -/
def modifyAt (f : α → α) : Nat → List α → List α
  | _, [] => []
  | 0, a :: as => f a :: as
  | n + 1, a :: as => a :: modifyAt f n as

/-- The debug-name overlay of `Lvb.__init__`: for each `DEBI` entry, look
its `gimmick_id` up in `gimmick_map`; if absent, `continue`; otherwise read
the name at its `string_id` and assign it to the referenced entry. -/
def applyDebi (strings : List Nat) (gmap : List (GKey × Nat × Nat)) :
    List Entry → List Section → Except DecodeError (List Section)
  | [], sections => .ok sections
  | e :: es, sections => do
    let d ← match e.mapped with
      | .debug g t s p => Except.ok (g, t, s, p)
      | _ => Except.error .typeError
    match dictGet gmap (GKey.num d.1) with
    | none => applyDebi strings gmap es sections
    | some pos => do
      let nm ← Strings.read strings d.2.2.1
      applyDebi strings gmap es
        (modifyAt
          (fun s => { s with
            entries := modifyAt (fun en => { en with name := some nm }) pos.2 s.entries })
          pos.1 sections)

/-- The decoded container: `self._version`, the object heap of all walked
sections after both mutation passes, and the two lookup dicts
(`self._gimmick_map`, `self._gimmick_bdat_map`) as position maps.  The
public `self._sections` list is `Lvb.publicSections`. -/
structure Lvb where
  version : Nat
  sections : List Section
  gimmick_map : List (GKey × Nat × Nat)
  gimmick_bdat_map : List (Nat × Nat × Nat)
deriving DecidableEq, Repr

/-- `self._sections = list(filter(lambda s: s.magic() not in SPECIAL_MAGIC, sections))`. -/
def Lvb.publicSections (l : Lvb) : List Section :=
  l.sections.filter fun s => decide (s.magic ∉ SPECIAL_MAGIC)

/-- `next(filter(lambda s: s.magic() == m, sections))`, with the default. -/
def findMagic (sections : List Section) (m : List Nat) : Option Section :=
  sections.find? fun s => decide (s.magic = m)

/-- `isModernFormat`: `xc3 = self._version >= 5`. -/
def xc3Of (version : Nat) : Bool := decide (5 ≤ version)

/-- Everything `Lvb.__init__` does after the section walk: locate the
required `INFO`, `XFRM`, `STRG` sections (`StopIteration`, i.e.
`missingRequiredSection`, when absent) and the optional `DEBI` section,
extract the string blob, run the cross-reference loop, and — in the modern
format, when `DEBI` is present — the debug-name overlay. -/
def resolveAll (xc3 : Bool) (version : Nat) (sections : List Section) :
    Except DecodeError Lvb := do
  let info ← match findMagic sections infoMagic with
    | some s => Except.ok s
    | none => Except.error .missingRequiredSection
  let xfrm ← match findMagic sections xfrmMagic with
    | some s => Except.ok s
    | none => Except.error .missingRequiredSection
  let debi := findMagic sections debiMagic
  let strg ← match findMagic sections strgMagic with
    | some s => Except.ok s
    | none => Except.error .missingRequiredSection
  let strgEntry ← match strg.entries[0]? with
    | some e => Except.ok e
    | none => Except.error .unresolvedReference
  let strings ← match strgEntry.mapped with
    | .strings buf => Except.ok buf
    | _ => Except.error .typeError
  let (sections1, gmap, bmap) ← resolveSections xc3 info.entries xfrm.entries strings 0 sections
  let sections2 ←
    if xc3 then
      match debi with
      | some d => applyDebi strings gmap d.entries sections1
      | none => Except.ok sections1
    else Except.ok sections1
  .ok { version := version, sections := sections2, gimmick_map := gmap,
        gimmick_bdat_map := bmap }

/-- `Lvb.__init__(data)`: validate bytes, assert the `LVLB` signature, read
the declared total size, version and unused hash, truncate the buffer to
`data[32:file_size]`, walk the section table, and resolve.  The result is
`none` when the section walk has not finished within `fuel` iterations. -/
def Lvb.init (ext : ExtRegistry) (fuel : Nat) (data0 : List Nat) :
    Option (Except DecodeError Lvb) :=
  if ¬ (∀ b ∈ data0, b < 256) then some (.error .valueError)
  else if data0.take 4 ≠ lvbMagic then some (.error .malformedHeader)
  else
    match u32? data0 4, u32? data0 8, u32? data0 12 with
    | some file_size, some version, some _unk_hash =>
      let xc3 := xc3Of version
      let data := (data0.take file_size).drop 32
      match walkSections ext xc3 data file_size fuel 0 [] with
      | none => none
      | some (.error e) => some (.error e)
      | some (.ok sections) => some (resolveAll xc3 version sections)
    | _, _, _ => some (.error .shortRead)

/-! ## Little-endian encoders (used to build concrete test buffers) -/

/-- Little-endian 4-byte encoding of `n % 2^32`. -/
def u32le (n : Nat) : List Nat :=
  [n % 256, n / 256 % 256, n / 65536 % 256, n / 16777216 % 256]

/-- Little-endian 2-byte encoding of `n % 2^16`. -/
def u16le (n : Nat) : List Nat := [n % 256, n / 256 % 256]

/-- Eight zero bytes: the reserved tail of a section header. -/
def pad8 : List Nat := List.replicate 8 0

/-- A non-special magic (`b"GMKA"`), decoded through the fallback path. -/
def gmkaMagic : List Nat := [0x47, 0x4D, 0x4B, 0x41]

/-! ## Concrete fixtures

Walked-section fixtures, as produced by the section walk on a small
modern-format buffer: one non-special `GMKA` section with a single raw
entry, and the four special sections. -/

def gmkaSec0 : Section :=
  { magic := gmkaMagic, size := 48, version := 0, count := 1, entry_size := 16, info_idx := 0,
    entries := [{ mapped := .default (List.replicate 16 0) }] }

def infoSec0 : Section :=
  { magic := infoMagic, size := 48, version := 0, count := 1, entry_size := 16, info_idx := 0,
    entries := [{ mapped := .info 7 0 1 2 17 }] }

def xfrmSec0 : Section :=
  { magic := xfrmMagic, size := 96, version := 0, count := 1, entry_size := 64, info_idx := 0,
    entries := [{ mapped := .xform (List.replicate 16 [0, 0, 0, 0]) }] }

def strgSec0 : Section :=
  { magic := strgMagic, size := 36, version := 0, count := 1, entry_size := 0, info_idx := 0,
    entries := [{ mapped := .strings [97, 0, 98, 0] }] }

def debiSec0 : Section :=
  { magic := debiMagic, size := 48, version := 0, count := 1, entry_size := 16, info_idx := 0,
    entries := [{ mapped := .debug 17 0 2 0 }] }

def goodSecs : List Section := [gmkaSec0, infoSec0, xfrmSec0, strgSec0, debiSec0]

def noDebiSecs : List Section := [gmkaSec0, infoSec0, xfrmSec0, strgSec0]

/-- The `GMKA` entry of the fixtures after cross-referencing. -/
def gmkaResolvedEntry : Entry :=
  { mapped := .default (List.replicate 16 0), info := some (.info 7 0 1 2 17),
    xfrm := some (.xform (List.replicate 16 [0, 0, 0, 0])), name := none }

def noDebiResolved : List Section :=
  [{ gmkaSec0 with entries := [gmkaResolvedEntry] }, infoSec0, xfrmSec0, strgSec0]

/-- `goodSecs` after cross-referencing and the debug-name overlay: the
`GMKA` entry is named `"b"` (string id 2 of the blob). -/
def goodResolvedSecs : List Section :=
  [{ gmkaSec0 with entries := [{ gmkaResolvedEntry with name := some ['b'] }] },
   infoSec0, xfrmSec0, strgSec0, debiSec0]

/-- The container decoded from `goodBuf` (equally: resolved from
`goodSecs`). -/
def goodLvb : Lvb :=
  { version := 5, sections := goodResolvedSecs,
    gimmick_map := [(GKey.num 17, 0, 0)], gimmick_bdat_map := [(7, 0, 0)] }

/-! Concrete byte buffers.  `goodBuf` decodes to a container whose walked
sections are exactly the fixtures above. -/

/-- A well-formed modern-format (version 5) buffer: `GMKA`, `INFO`, `XFRM`,
`STRG`, `DEBI` sections; one gimmick whose `hash_id` 17 is named by the
single `DEBI` record (string id 2, the string `"b"`). -/
def goodBuf : List Nat :=
  (lvbMagic ++ u32le 308 ++ u32le 5 ++ u32le 0 ++ List.replicate 16 0) ++
  (gmkaMagic ++ u32le 48 ++ u32le 0 ++ u32le 1 ++ u32le 16 ++ u32le 0 ++ pad8 ++
    List.replicate 16 0) ++
  (infoMagic ++ u32le 48 ++ u32le 0 ++ u32le 1 ++ u32le 16 ++ u32le 0 ++ pad8 ++
    (u32le 7 ++ u32le 0 ++ u16le 1 ++ u16le 2 ++ u32le 17)) ++
  (xfrmMagic ++ u32le 96 ++ u32le 0 ++ u32le 1 ++ u32le 64 ++ u32le 0 ++ pad8 ++
    List.replicate 64 0) ++
  (strgMagic ++ u32le 36 ++ u32le 0 ++ u32le 1 ++ u32le 0 ++ u32le 0 ++ pad8 ++
    [0x61, 0, 0x62, 0]) ++
  (debiMagic ++ u32le 48 ++ u32le 0 ++ u32le 1 ++ u32le 16 ++ u32le 0 ++ pad8 ++
    (u32le 17 ++ u32le 0 ++ u32le 2 ++ u32le 0))

/-- The truncated window `data[32:file_size]` of `goodBuf`. -/
def goodWindow : List Nat := (goodBuf.take 308).drop 32

/-- Like `goodBuf` but with two `DEBI` records carrying the same
`gimmick_id` 17 and different string ids (0, the string `"a"`, then 2,
the string `"b"`). -/
def c6Buf : List Nat :=
  (lvbMagic ++ u32le 324 ++ u32le 5 ++ u32le 0 ++ List.replicate 16 0) ++
  (gmkaMagic ++ u32le 48 ++ u32le 0 ++ u32le 1 ++ u32le 16 ++ u32le 0 ++ pad8 ++
    List.replicate 16 0) ++
  (infoMagic ++ u32le 48 ++ u32le 0 ++ u32le 1 ++ u32le 16 ++ u32le 0 ++ pad8 ++
    (u32le 7 ++ u32le 0 ++ u16le 1 ++ u16le 2 ++ u32le 17)) ++
  (xfrmMagic ++ u32le 96 ++ u32le 0 ++ u32le 1 ++ u32le 64 ++ u32le 0 ++ pad8 ++
    List.replicate 64 0) ++
  (strgMagic ++ u32le 36 ++ u32le 0 ++ u32le 1 ++ u32le 0 ++ u32le 0 ++ pad8 ++
    [0x61, 0, 0x62, 0]) ++
  (debiMagic ++ u32le 64 ++ u32le 0 ++ u32le 2 ++ u32le 16 ++ u32le 0 ++ pad8 ++
    (u32le 17 ++ u32le 0 ++ u32le 0 ++ u32le 0) ++
    (u32le 17 ++ u32le 0 ++ u32le 2 ++ u32le 0))

/-- Like `goodBuf` but the `DEBI` record's string id 10 lies outside the
4-byte string blob. -/
def c7Buf : List Nat :=
  (lvbMagic ++ u32le 308 ++ u32le 5 ++ u32le 0 ++ List.replicate 16 0) ++
  (gmkaMagic ++ u32le 48 ++ u32le 0 ++ u32le 1 ++ u32le 16 ++ u32le 0 ++ pad8 ++
    List.replicate 16 0) ++
  (infoMagic ++ u32le 48 ++ u32le 0 ++ u32le 1 ++ u32le 16 ++ u32le 0 ++ pad8 ++
    (u32le 7 ++ u32le 0 ++ u16le 1 ++ u16le 2 ++ u32le 17)) ++
  (xfrmMagic ++ u32le 96 ++ u32le 0 ++ u32le 1 ++ u32le 64 ++ u32le 0 ++ pad8 ++
    List.replicate 64 0) ++
  (strgMagic ++ u32le 36 ++ u32le 0 ++ u32le 1 ++ u32le 0 ++ u32le 0 ++ pad8 ++
    [0x61, 0, 0x62, 0]) ++
  (debiMagic ++ u32le 48 ++ u32le 0 ++ u32le 1 ++ u32le 16 ++ u32le 0 ++ pad8 ++
    (u32le 17 ++ u32le 0 ++ u32le 10 ++ u32le 0))

/-- A buffer whose first section declares size 0: the walk never advances. -/
def c8Buf : List Nat :=
  (lvbMagic ++ u32le 100 ++ u32le 5 ++ u32le 0 ++ List.replicate 16 0) ++
  (gmkaMagic ++ u32le 0 ++ u32le 0 ++ u32le 0 ++ u32le 0 ++ u32le 0 ++ pad8)

/-- The truncated window `data[32:file_size]` of `c8Buf`. -/
def c8Window : List Nat := (c8Buf.take 100).drop 32

/-- An 8-byte buffer: valid signature, declared total size 8. -/
def c10A : List Nat := lvbMagic ++ u32le 8

/-- `c10A` padded with zero bytes: agrees with `c10A` on its first 8 bytes
(the declared total size of both). -/
def c10B : List Nat := lvbMagic ++ u32le 8 ++ pad8

/-- The string ids of the `DEBI` records that resolve, through the hash
lookup table, to the entry at position `pos`, in record order. -/
def debiMatchesAt (gmap : List (GKey × Nat × Nat)) (des : List Entry) (pos : Nat × Nat) :
    List Nat :=
  des.filterMap fun e =>
    match e.mapped with
    | .debug g _ s _ => if dictGet gmap (GKey.num g) = some pos then some s else none
    | _ => none

/-- The `DEBI` section of `c6Buf`: two records with the same gimmick id. -/
def c6DebiSec : Section :=
  { magic := debiMagic, size := 64, version := 0, count := 2, entry_size := 16, info_idx := 0,
    entries := [{ mapped := .debug 17 0 0 0 }, { mapped := .debug 17 0 2 0 }] }

/-- The container decoded from `c6Buf`: the gimmick's final name is `"b"`,
from the second (last) matching record. -/
def c6Lvb : Lvb :=
  { version := 5,
    sections := [{ gmkaSec0 with entries := [{ gmkaResolvedEntry with name := some ['b'] }] },
                 infoSec0, xfrmSec0, strgSec0, c6DebiSec],
    gimmick_map := [(GKey.num 17, 0, 0)], gimmick_bdat_map := [(7, 0, 0)] }

/-- A `DEBI` section whose single record's string id 10 lies outside the
4-byte blob (the sections of `c7Buf`). -/
def c7DebiSec : Section :=
  { magic := debiMagic, size := 48, version := 0, count := 1, entry_size := 16, info_idx := 0,
    entries := [{ mapped := .debug 17 0 10 0 }] }

def c7Secs : List Section := [gmkaSec0, infoSec0, xfrmSec0, strgSec0, c7DebiSec]

/-- A legacy-format `INFO` section whose entry's `name_id` 10 lies outside
the 4-byte blob. -/
def infoLegacySecBad : Section :=
  { magic := infoMagic, size := 48, version := 0, count := 1, entry_size := 16, info_idx := 0,
    entries := [{ mapped := .infoLegacy 10 0 0 }] }

def legacyBadSecs : List Section := [gmkaSec0, infoLegacySecBad, xfrmSec0, strgSec0]

/-- The section decoded at offset 0 of `c8Buf`'s window: declared size 0. -/
def c8Sec : Section :=
  { magic := gmkaMagic, size := 0, version := 0, count := 0, entry_size := 0, info_idx := 0,
    entries := [] }

/-- The debug overlay touches only entry names: everything else about the
section list — lengths, headers, and each entry's payload and resolved
info/transform links — is preserved. -/
def CorePreserved (secs secs2 : List Section) : Prop :=
  secs2.length = secs.length ∧
  ∀ (j : Nat) (s : Section), secs[j]? = some s →
    ∃ s2 : Section, secs2[j]? = some s2 ∧
      s2.magic = s.magic ∧ s2.size = s.size ∧ s2.info_idx = s.info_idx ∧
      s2.entries.length = s.entries.length ∧
      ∀ (k : Nat) (e : Entry), s.entries[k]? = some e →
        ∃ e2 : Entry, s2.entries[k]? = some e2 ∧
          e2.mapped = e.mapped ∧ e2.info = e.info ∧ e2.xfrm = e.xfrm

/-! ## Specification-side walk chain (for the refinement claim C2) -/

/-- Modelled from the spec's walk description: starting at relative offset
`start`, a chain of section headers in which each section sits exactly at
the offset reached by advancing the previous offset by that section's
declared size, stopping as soon as the offset is no longer below `bound`
(`bound` being `declared_total_size - 32`).  `SectionWalk ext xc3 data
bound 0 secs` says `secs` is one section per header so reached, in file
order. -/
inductive SectionWalk (ext : ExtRegistry) (xc3 : Bool) (data : List Nat) (bound : Nat) :
    Nat → List Section → Prop
  | nil : ∀ start, ¬ start < bound → SectionWalk ext xc3 data bound start []
  | cons : ∀ start sec rest, start < bound → Section.init ext data xc3 start = .ok sec →
      SectionWalk ext xc3 data bound (start + sec.size) rest →
      SectionWalk ext xc3 data bound start (sec :: rest)

/-- The relative offsets the source's section walk actually reaches:
offset 0 (the byte just after the 32-byte file header), and, from any
reached offset still below the bound whose section header decodes, the
offset advanced by that section's declared size. -/
inductive WalkReach (ext : ExtRegistry) (xc3 : Bool) (data : List Nat) (bound : Nat) :
    Nat → Prop
  | zero : WalkReach ext xc3 data bound 0
  | step : ∀ start sec, WalkReach ext xc3 data bound start → start < bound →
      Section.init ext data xc3 start = .ok sec →
      WalkReach ext xc3 data bound (start + sec.size)

/-- Divergence of the fueled decoder: no amount of fuel makes the source's
`while` loop finish on this input. -/
def decodeDiverges (ext : ExtRegistry) (data0 : List Nat) : Prop :=
  ∀ fuel, Lvb.init ext fuel data0 = none

/-! ## C3: mapper-registry resolution order -/

/-- C3.  The mapper registry resolves decoders in the order: built-in table
first (`INFO` to the 5-field `Info` decoder exactly when version ≥ 5, with
the boundary between version 4 and 5, and to the 3-field `InfoLegacy`
decoder below it; `XFRM` to `Xform`; `DEBI` to `Debug`; `STRG` to
`Strings`), then — only for magics that are not built-in — a plugin decoder
registered for (magic, format flag), and otherwise the raw `Default`
decoder, so resolution is total and no unrecognized magic halts decoding. -/
theorem claim_C3 :
    (∀ (ext : ExtRegistry) (v : Nat),
      mapper_registry ext infoMagic (xc3Of v) = if 5 ≤ v then Info else InfoLegacy) ∧
    (∀ (ext : ExtRegistry) (xc3 : Bool), mapper_registry ext xfrmMagic xc3 = Xform) ∧
    (∀ (ext : ExtRegistry) (xc3 : Bool), mapper_registry ext debiMagic xc3 = Debug) ∧
    (∀ (ext : ExtRegistry) (xc3 : Bool), mapper_registry ext strgMagic xc3 = Strings) ∧
    (∀ (ext : ExtRegistry) (xc3 : Bool) (magic : List Nat) (m : Mapper),
      magic ∉ SPECIAL_MAGIC → ext magic xc3 = some m → mapper_registry ext magic xc3 = m) ∧
    (∀ (ext : ExtRegistry) (xc3 : Bool) (magic : List Nat),
      magic ∉ SPECIAL_MAGIC → ext magic xc3 = none → mapper_registry ext magic xc3 = Default) ∧
    xc3Of 5 = true ∧ xc3Of 4 = false := by
  refine ⟨?_, ?_, ?_, ?_, ?_, ?_, by decide, by decide⟩
  · intro ext v
    by_cases h : 5 ≤ v <;> simp [mapper_registry, xc3Of, h]
  · intro ext xc3
    simp [mapper_registry, xfrmMagic, infoMagic]
  · intro ext xc3
    simp [mapper_registry, debiMagic, infoMagic, xfrmMagic]
  · intro ext xc3
    simp [mapper_registry, strgMagic, infoMagic, xfrmMagic, debiMagic]
  · intro ext xc3 magic m hmem hext
    simp only [SPECIAL_MAGIC, List.mem_cons, List.not_mem_nil, or_false, not_or] at hmem
    obtain ⟨h1, h2, h3, h4⟩ := hmem
    simp [mapper_registry, h1, h2, h3, h4, hext]
  · intro ext xc3 magic hmem hext
    simp only [SPECIAL_MAGIC, List.mem_cons, List.not_mem_nil, or_false, not_or] at hmem
    obtain ⟨h1, h2, h3, h4⟩ := hmem
    simp [mapper_registry, h1, h2, h3, h4, hext]

/-- Witness for C3 at concrete inputs: versions 5 and 4 at the boundary, a
plugin registered for an unknown magic, and the raw fallback without one. -/
theorem claim_C3_wit :
    mapper_registry extNone infoMagic (xc3Of 5) = Info ∧
    mapper_registry extNone infoMagic (xc3Of 4) = InfoLegacy ∧
    mapper_registry (fun _ _ => some Xform) gmkaMagic true = Xform ∧
    mapper_registry extNone gmkaMagic true = Default := by
  refine ⟨?_, ?_, ?_, ?_⟩
  · have h := claim_C3.1 extNone 5
    simpa using h
  · have h := claim_C3.1 extNone 4
    simpa using h
  · exact claim_C3.2.2.2.2.1 (fun _ _ => some Xform) true gmkaMagic Xform (by decide) rfl
  · exact claim_C3.2.2.2.2.2.1 extNone true gmkaMagic (by decide) rfl

/-! ## C5: required sections -/

@[simp] theorem except_bind_ok (a : α) (f : α → Except DecodeError β) :
    (Except.ok a : Except DecodeError α) >>= f = f a := rfl

@[simp] theorem except_bind_error (e : DecodeError) (f : α → Except DecodeError β) :
    (Except.error e : Except DecodeError α) >>= f = .error e := rfl

theorem findMagic_eq_none {sections : List Section} {m : List Nat}
    (h : ∀ s ∈ sections, s.magic ≠ m) : findMagic sections m = none := by
  simp only [findMagic, List.find?_eq_none, decide_eq_true_eq]
  exact h

/-- C5.  Container construction fails with `missingRequiredSection` whenever
the walked section list has no `INFO`, no `XFRM`, or no `STRG` section;
the absence of a `DEBI` section is not an error — when every other stage
succeeds, construction succeeds with the debug-name overlay skipped
(the resolved sections are returned unchanged by the overlay stage). -/
theorem claim_C5 :
    (∀ (xc3 : Bool) (v : Nat) (sections : List Section),
      (∀ s ∈ sections, s.magic ≠ infoMagic) →
      resolveAll xc3 v sections = .error .missingRequiredSection) ∧
    (∀ (xc3 : Bool) (v : Nat) (sections : List Section),
      (∀ s ∈ sections, s.magic ≠ xfrmMagic) →
      resolveAll xc3 v sections = .error .missingRequiredSection) ∧
    (∀ (xc3 : Bool) (v : Nat) (sections : List Section),
      (∀ s ∈ sections, s.magic ≠ strgMagic) →
      resolveAll xc3 v sections = .error .missingRequiredSection) ∧
    (∀ (xc3 : Bool) (v : Nat) (sections : List Section) (info xfrm strg : Section)
        (e0 : Entry) (buf : List Nat)
        (secs1 : List Section) (g : List (GKey × Nat × Nat)) (bm : List (Nat × Nat × Nat)),
      findMagic sections debiMagic = none →
      findMagic sections infoMagic = some info →
      findMagic sections xfrmMagic = some xfrm →
      findMagic sections strgMagic = some strg →
      strg.entries[0]? = some e0 →
      e0.mapped = .strings buf →
      resolveSections xc3 info.entries xfrm.entries buf 0 sections = .ok (secs1, g, bm) →
      resolveAll xc3 v sections =
        .ok { version := v, sections := secs1, gimmick_map := g, gimmick_bdat_map := bm }) := by
  refine ⟨?_, ?_, ?_, ?_⟩
  · intro xc3 v sections h
    simp [resolveAll, findMagic_eq_none h]
  · intro xc3 v sections h
    cases hinfo : findMagic sections infoMagic <;>
      simp [resolveAll, hinfo, findMagic_eq_none h]
  · intro xc3 v sections h
    cases hinfo : findMagic sections infoMagic <;>
      cases hxfrm : findMagic sections xfrmMagic <;>
      simp [resolveAll, hinfo, hxfrm, findMagic_eq_none h]
  · intro xc3 v sections info xfrm strg e0 buf secs1 g bm hdebi hinfo hxfrm hstrg he0 hbuf hres
    cases xc3 <;>
      simp [resolveAll, hdebi, hinfo, hxfrm, hstrg, he0, hbuf, hres]

/-- Witness for C5 at concrete inputs: empty and incomplete section lists fail
with `missingRequiredSection`; a full list without `DEBI` succeeds, with
the overlay skipped. -/
theorem claim_C5_wit :
    resolveAll true 5 [] = .error .missingRequiredSection ∧
    resolveAll false 4 [strgSec0] = .error .missingRequiredSection ∧
    resolveAll true 5 [infoSec0, xfrmSec0] = .error .missingRequiredSection ∧
    resolveAll true 5 noDebiSecs =
      .ok { version := 5, sections := noDebiResolved,
            gimmick_map := [(GKey.num 17, 0, 0)], gimmick_bdat_map := [(7, 0, 0)] } :=
  ⟨claim_C5.1 true 5 [] (by decide),
   claim_C5.2.1 false 4 [strgSec0] (by decide),
   claim_C5.2.2.1 true 5 [infoSec0, xfrmSec0] (by decide),
   claim_C5.2.2.2 true 5 noDebiSecs infoSec0 xfrmSec0 strgSec0 _ [97, 0, 98, 0] _ _ _
     rfl rfl rfl rfl rfl rfl rfl⟩

/-! ## C2: the section walk -/

@[simp] theorem ofOpt_some (a : α) : ofOpt (some a) = Except.ok a := rfl

@[simp] theorem ofOpt_none : (ofOpt none : Except DecodeError α) = .error .shortRead := rfl

/-- Inversion of a successful `Section.__init__`: each stored header field
is exactly the little-endian read at its fixed offset from `start`. -/
theorem Section.init_ok_header {ext : ExtRegistry} {data : List Nat} {xc3 : Bool}
    {start : Nat} {sec : Section} (h : Section.init ext data xc3 start = .ok sec) :
    sec.magic = pySlice data start (start + 4) ∧
    u32? data (start + 4) = some sec.size ∧
    u32? data (start + 8) = some sec.version ∧
    u32? data (start + 12) = some sec.count ∧
    u32? data (start + 16) = some sec.entry_size ∧
    u32? data (start + 20) = some sec.info_idx := by
  simp only [Section.init] at h
  cases h4 : u32? data (start + 4) <;> rw [h4] at h <;>
    simp only [ofOpt_some, ofOpt_none, except_bind_ok, except_bind_error] at h
  case none => exact absurd h (by simp)
  case some size =>
  cases h8 : u32? data (start + 8) <;> rw [h8] at h <;>
    simp only [ofOpt_some, ofOpt_none, except_bind_ok, except_bind_error] at h
  case none => exact absurd h (by simp)
  case some ver =>
  cases h12 : u32? data (start + 12) <;> rw [h12] at h <;>
    simp only [ofOpt_some, ofOpt_none, except_bind_ok, except_bind_error] at h
  case none => exact absurd h (by simp)
  case some cnt =>
  cases h16 : u32? data (start + 16) <;> rw [h16] at h <;>
    simp only [ofOpt_some, ofOpt_none, except_bind_ok, except_bind_error] at h
  case none => exact absurd h (by simp)
  case some esz =>
  cases h20 : u32? data (start + 20) <;> rw [h20] at h <;>
    simp only [ofOpt_some, ofOpt_none, except_bind_ok, except_bind_error] at h
  case none => exact absurd h (by simp)
  case some iidx =>
  split at h
  · cases hE : decodeEntries (mapper_registry ext (pySlice data start (start + 4)) xc3) data
        (start + 32) esz 0 cnt <;> rw [hE] at h <;>
      simp only [except_bind_ok, except_bind_error] at h
    · exact absurd h (by simp)
    · cases h
      refine ⟨rfl, ?_, ?_, ?_, ?_, ?_⟩ <;> simp [h4, h8, h12, h16, h20]
  · cases hP : mapper_registry ext (pySlice data start (start + 4)) xc3
        (pySlice data (start + 32) (start + size)) <;> rw [hP] at h <;>
      simp only [except_bind_ok, except_bind_error] at h
    · exact absurd h (by simp)
    · cases h
      refine ⟨rfl, ?_, ?_, ?_, ?_, ?_⟩ <;> simp [h4, h8, h12, h16, h20]

/-- A finishing successful walk is the unique spec-side chain from its
start offset (relative to the accumulated prefix). -/
theorem walkSections_ok_chain {ext : ExtRegistry} {xc3 : Bool} {data : List Nat} {fs : Nat} :
    ∀ {fuel start : Nat} {acc secs : List Section},
      walkSections ext xc3 data fs fuel start acc = some (.ok secs) →
      ∃ tail, secs = acc ++ tail ∧ SectionWalk ext xc3 data (fs - 32) start tail := by
  intro fuel
  induction fuel with
  | zero => intro start acc secs h; simp [walkSections] at h
  | succ n ih =>
    intro start acc secs h
    rw [walkSections] at h
    by_cases hb : start < fs - 32
    · rw [if_pos hb] at h
      cases hs : Section.init ext data xc3 start with
      | error e => rw [hs] at h; simp at h
      | ok sec =>
        rw [hs] at h
        obtain ⟨tail, rfl, hchain⟩ := ih h
        exact ⟨sec :: tail, by simp, SectionWalk.cons start sec tail hb hs hchain⟩
    · rw [if_neg hb] at h
      simp only [Option.some.injEq, Except.ok.injEq] at h
      exact ⟨[], by simp [h], SectionWalk.nil start hb⟩

/-- The spec-side chain is deterministic. -/
theorem sectionWalk_unique {ext : ExtRegistry} {xc3 : Bool} {data : List Nat} {bound : Nat} :
    ∀ {start : Nat} {l1 l2 : List Section},
      SectionWalk ext xc3 data bound start l1 → SectionWalk ext xc3 data bound start l2 →
      l1 = l2 := by
  intro start l1 l2 h1
  induction h1 generalizing l2 with
  | nil s hs =>
    intro h2
    cases h2 with
    | nil => rfl
    | cons _ _ _ hb => exact absurd hb hs
  | cons s sec rest hb hsec hrest ih =>
    intro h2
    cases h2 with
    | nil _ hns => exact absurd hb hns
    | cons _ sec2 rest2 hb2 hsec2 hrest2 =>
      have hsame : sec = sec2 := by
        have := hsec.symm.trans hsec2
        exact Except.ok.inj this
      subst hsame
      exact congrArg (sec :: ·) (ih hrest2)

/-- C2.  For every buffer whose walk finishes successfully, the decoded
section list is exactly the chain of sections obtained by starting at the
byte after the 32-byte header (relative offset 0) and repeatedly advancing
by the current section's declared size field until the relative offset
reaches `declared_total_size - 32`, in file order: the walk result is such
a chain (first conjunct), the chain is unique (second conjunct), and the
size by which the walk advances is the declared u32 at offset `start + 4`,
never recomputed from the section's contents (third conjunct). -/
theorem claim_C2 :
    (∀ (ext : ExtRegistry) (xc3 : Bool) (data : List Nat) (fs fuel : Nat) (secs : List Section),
      walkSections ext xc3 data fs fuel 0 [] = some (.ok secs) →
      SectionWalk ext xc3 data (fs - 32) 0 secs) ∧
    (∀ (ext : ExtRegistry) (xc3 : Bool) (data : List Nat) (bound start : Nat)
        (l1 l2 : List Section),
      SectionWalk ext xc3 data bound start l1 → SectionWalk ext xc3 data bound start l2 →
      l1 = l2) ∧
    (∀ (ext : ExtRegistry) (data : List Nat) (xc3 : Bool) (start : Nat) (sec : Section),
      Section.init ext data xc3 start = .ok sec → u32? data (start + 4) = some sec.size) := by
  refine ⟨?_, ?_, ?_⟩
  · intro ext xc3 data fs fuel secs h
    obtain ⟨tail, htail, hchain⟩ := walkSections_ok_chain h
    simpa [htail] using hchain
  · intro ext xc3 data bound start l1 l2 h1 h2
    exact sectionWalk_unique h1 h2
  · intro ext data xc3 start sec h
    exact (Section.init_ok_header h).2.1

/-- Witness for C2 on the concrete good buffer: its five sections are the
walk chain, the chain is unique, and the first section's declared size
field is 48. -/
theorem claim_C2_wit :
    SectionWalk extNone true goodWindow (308 - 32) 0 goodSecs ∧
    goodSecs = goodSecs ∧
    u32? goodWindow 4 = some gmkaSec0.size := by
  have h1 := claim_C2.1 extNone true goodWindow 308 400 goodSecs rfl
  exact ⟨h1, claim_C2.2.1 extNone true goodWindow (308 - 32) 0 goodSecs goodSecs h1 h1,
    claim_C2.2.2 extNone goodWindow true 0 gmkaSec0 rfl⟩

/-! ## C8: termination of the walk -/

/-- If every section header the walk actually reaches below the bound
declares a positive size, the walk starting from a reached offset finishes
(with a result or an error) once the fuel exceeds the remaining distance. -/
theorem walkSections_total {ext : ExtRegistry} {xc3 : Bool} {data : List Nat} {fs : Nat}
    (hpos : ∀ (start : Nat) (sec : Section), WalkReach ext xc3 data (fs - 32) start →
      start < fs - 32 → Section.init ext data xc3 start = .ok sec → 1 ≤ sec.size) :
    ∀ {fuel start : Nat} {acc : List Section}, WalkReach ext xc3 data (fs - 32) start →
      fs - 32 - start < fuel →
      ∃ r, walkSections ext xc3 data fs fuel start acc = some r := by
  intro fuel
  induction fuel with
  | zero => intro start acc _ h; exact absurd h (Nat.not_lt_zero _)
  | succ n ih =>
    intro start acc hreach h
    rw [walkSections]
    by_cases hb : start < fs - 32
    · rw [if_pos hb]
      cases hs : Section.init ext data xc3 start with
      | error e => exact ⟨_, rfl⟩
      | ok sec =>
        have hsz := hpos start sec hreach hb hs
        exact ih (WalkReach.step start sec hreach hb hs)
          (show fs - 32 - (start + sec.size) < n by omega)
    · rw [if_neg hb]
      exact ⟨_, rfl⟩

theorem walkSections_c8_none :
    ∀ (fuel : Nat) (acc : List Section),
      walkSections extNone true c8Window 100 fuel 0 acc = none := by
  intro fuel
  induction fuel with
  | zero => intro acc; rfl
  | succ n ih =>
    intro acc
    have hsec : Section.init extNone c8Window true 0 = .ok c8Sec := rfl
    rw [walkSections, if_pos (by norm_num), hsec]
    exact ih (acc ++ [c8Sec])

/-- C8 counterexample.  Decoding does not terminate on every input buffer:
on `c8Buf` — whose first section header declares size 0, so the `while`
loop never advances — no amount of fuel makes the decoder finish, refuting
the claim that the section walk always terminates. -/
theorem claim_C8_cex :
    decodeDiverges extNone c8Buf ∧
    Section.init extNone c8Window true 0 = .ok c8Sec ∧
    c8Sec.size = 0 := by
  refine ⟨?_, rfl, rfl⟩
  intro fuel
  have hw : walkSections extNone true c8Window 100 fuel 0 [] = none :=
    walkSections_c8_none fuel []
  show (match walkSections extNone true c8Window 100 fuel 0 [] with
        | none => none
        | some (.error e) => some (.error e)
        | some (.ok sections) => some (resolveAll true 5 sections)) = none
  rw [hw]

/-- C8 (amended).  Decoding terminates — the fueled decoder returns a
result — for every input buffer in which each section header the walk
actually reaches (`WalkReach`: offset 0 and every offset obtained by
advancing a reached, in-bounds, decodable header by its declared size)
declares a positive size, with `declaredTotalSize` steps of fuel
sufficient; a zero declared size at a reached header (see the
counterexample) makes the source's walk loop forever.  The witness
discharges the reached-header hypothesis on the well-formed `goodBuf`. -/
theorem claim_C8 :
    ∀ (ext : ExtRegistry) (data0 : List Nat) (fuel fs : Nat),
      u32? data0 4 = some fs → fs < fuel →
      (∀ (xc3 : Bool) (start : Nat) (sec : Section),
        WalkReach ext xc3 ((data0.take fs).drop 32) (fs - 32) start →
        start < fs - 32 →
        Section.init ext ((data0.take fs).drop 32) xc3 start = .ok sec → 1 ≤ sec.size) →
      ∃ r, Lvb.init ext fuel data0 = some r := by
  intro ext data0 fuel fs h4 hf hpos
  simp only [Lvb.init]
  split
  · exact ⟨_, rfl⟩
  · split
    · exact ⟨_, rfl⟩
    · rw [h4]
      cases h8 : u32? data0 8 with
      | none => exact ⟨_, rfl⟩
      | some version =>
        cases h12 : u32? data0 12 with
        | none => exact ⟨_, rfl⟩
        | some unk =>
          obtain ⟨r, hr⟩ :=
            @walkSections_total ext (xc3Of version) ((data0.take fs).drop 32) fs
              (hpos (xc3Of version)) fuel 0 [] WalkReach.zero
              (show fs - 32 - 0 < fuel by omega)
          cases r with
          | error e => exact ⟨.error e, by dsimp only; rw [hr]⟩
          | ok sections =>
            exact ⟨resolveAll (xc3Of version) version sections, by dsimp only; rw [hr]⟩

/-- In `goodBuf`'s window the walk can only reach the offsets of its five
real section headers (0, 48, 96, 192, 228) and the stopping offset 276:
each reached header's declared size (48, 48, 96, 36, 48) forces the next
offset. -/
theorem goodWindow_reach_mem :
    ∀ (xc3 : Bool) (start : Nat), WalkReach extNone xc3 goodWindow (308 - 32) start →
      start = 0 ∨ start = 48 ∨ start = 96 ∨ start = 192 ∨ start = 228 ∨ start = 276 := by
  intro xc3 start h
  induction h with
  | zero => exact Or.inl rfl
  | step s sec hr hb hs ih =>
    have hsize := (Section.init_ok_header hs).2.1
    rcases ih with rfl | rfl | rfl | rfl | rfl | rfl
    · have h1 := Option.some.inj
        ((show u32? goodWindow (0 + 4) = some 48 from rfl).symm.trans hsize)
      omega
    · have h1 := Option.some.inj
        ((show u32? goodWindow (48 + 4) = some 48 from rfl).symm.trans hsize)
      omega
    · have h1 := Option.some.inj
        ((show u32? goodWindow (96 + 4) = some 96 from rfl).symm.trans hsize)
      omega
    · have h1 := Option.some.inj
        ((show u32? goodWindow (192 + 4) = some 36 from rfl).symm.trans hsize)
      omega
    · have h1 := Option.some.inj
        ((show u32? goodWindow (228 + 4) = some 48 from rfl).symm.trans hsize)
      omega
    · exact absurd hb (by omega)

/-- Witness for C8 (amended) on the well-formed `goodBuf`: every section
header its walk reaches declares a positive size (48, 48, 96, 36 or 48),
so the decoder returns a result within the declared-size fuel bound. -/
theorem claim_C8_wit : ∃ r, Lvb.init extNone 400 goodBuf = some r :=
  claim_C8 extNone goodBuf 400 308 rfl (by norm_num) (by
    intro xc3 start sec hr hb hs
    have hsize := (Section.init_ok_header hs).2.1
    rcases goodWindow_reach_mem xc3 start hr with rfl | rfl | rfl | rfl | rfl | rfl
    · have h1 := Option.some.inj
        ((show u32? goodWindow (0 + 4) = some 48 from rfl).symm.trans hsize)
      omega
    · have h1 := Option.some.inj
        ((show u32? goodWindow (48 + 4) = some 48 from rfl).symm.trans hsize)
      omega
    · have h1 := Option.some.inj
        ((show u32? goodWindow (96 + 4) = some 96 from rfl).symm.trans hsize)
      omega
    · have h1 := Option.some.inj
        ((show u32? goodWindow (192 + 4) = some 36 from rfl).symm.trans hsize)
      omega
    · have h1 := Option.some.inj
        ((show u32? goodWindow (228 + 4) = some 48 from rfl).symm.trans hsize)
      omega
    · exact absurd hb (by omega))

/-! ## C4: section entry decoding -/

theorem decodeEntries_ok {m : Mapper} {data : List Nat} {es esz : Nat} :
    ∀ {n i : Nat} {l : List Entry}, decodeEntries m data es esz i n = .ok l →
      l.length = n ∧
      ∀ j, j < n → ∃ p, m (pySlice data (es + (i + j) * esz) (es + (i + j + 1) * esz)) = .ok p ∧
        l[j]? = some { mapped := p } := by
  intro n
  induction n with
  | zero =>
    intro i l h
    simp only [decodeEntries, Except.ok.injEq] at h
    subst h
    exact ⟨rfl, fun j hj => absurd hj (by omega)⟩
  | succ k ih =>
    intro i l h
    rw [decodeEntries] at h
    cases hp : m (pySlice data (es + i * esz) (es + (i + 1) * esz)) <;> rw [hp] at h <;>
      simp only [except_bind_ok, except_bind_error] at h
    · exact absurd h (by simp)
    case ok p =>
    cases hr : decodeEntries m data es esz (i + 1) k <;> rw [hr] at h <;>
      simp only [except_bind_ok, except_bind_error] at h
    · exact absurd h (by simp)
    case ok rest =>
    cases h
    obtain ⟨hlen, hall⟩ := ih hr
    refine ⟨by simp [hlen], ?_⟩
    intro j hj
    cases j with
    | zero => exact ⟨p, by simpa using hp, by simp⟩
    | succ j1 =>
      obtain ⟨p1, hp1, hl1⟩ := hall j1 (by omega)
      have e1 : i + 1 + j1 = i + (j1 + 1) := by omega
      rw [e1] at hp1
      exact ⟨p1, hp1, by simpa using hl1⟩

/-- C4.  For a successfully decoded section: if its magic is `STRG` it has
exactly one entry whose payload is the `Strings` decoder applied to the
byte range `[start+32, start+declaredSize)` of the walk window; for any
other magic it has exactly `count` entries, the `i`-th produced by applying
the resolved decoder to the `entry_size`-byte slice starting at
`start + 32 + i * entry_size` — each payload a function of its own slice
alone. -/
theorem claim_C4 :
    ∀ (ext : ExtRegistry) (data : List Nat) (xc3 : Bool) (start : Nat) (sec : Section),
      Section.init ext data xc3 start = .ok sec →
      (sec.magic = strgMagic →
        sec.entries = [{ mapped := .strings (pySlice data (start + 32) (start + sec.size)) }]) ∧
      (sec.magic ≠ strgMagic →
        sec.entries.length = sec.count ∧
        ∀ i, i < sec.count →
          ∃ p, mapper_registry ext sec.magic xc3
              (pySlice data (start + 32 + i * sec.entry_size)
                (start + 32 + (i + 1) * sec.entry_size)) = .ok p ∧
            sec.entries[i]? = some { mapped := p }) := by
  intro ext data xc3 start sec h
  simp only [Section.init] at h
  cases h4 : u32? data (start + 4) <;> rw [h4] at h <;>
    simp only [ofOpt_some, ofOpt_none, except_bind_ok, except_bind_error] at h
  case none => exact absurd h (by simp)
  case some size =>
  cases h8 : u32? data (start + 8) <;> rw [h8] at h <;>
    simp only [ofOpt_some, ofOpt_none, except_bind_ok, except_bind_error] at h
  case none => exact absurd h (by simp)
  case some ver =>
  cases h12 : u32? data (start + 12) <;> rw [h12] at h <;>
    simp only [ofOpt_some, ofOpt_none, except_bind_ok, except_bind_error] at h
  case none => exact absurd h (by simp)
  case some cnt =>
  cases h16 : u32? data (start + 16) <;> rw [h16] at h <;>
    simp only [ofOpt_some, ofOpt_none, except_bind_ok, except_bind_error] at h
  case none => exact absurd h (by simp)
  case some esz =>
  cases h20 : u32? data (start + 20) <;> rw [h20] at h <;>
    simp only [ofOpt_some, ofOpt_none, except_bind_ok, except_bind_error] at h
  case none => exact absurd h (by simp)
  case some iidx =>
  split at h
  case isTrue hm =>
    cases hE : decodeEntries (mapper_registry ext (pySlice data start (start + 4)) xc3) data
        (start + 32) esz 0 cnt <;> rw [hE] at h <;>
      simp only [except_bind_ok, except_bind_error] at h
    · exact absurd h (by simp)
    · cases h
      obtain ⟨hlen, hall⟩ := decodeEntries_ok hE
      constructor
      · intro hs
        exact absurd hs hm
      · intro _
        refine ⟨by simpa using hlen, ?_⟩
        intro i hi
        obtain ⟨p, hp, hl⟩ := hall i (by simpa using hi)
        refine ⟨p, ?_, by simpa using hl⟩
        have e0 : 0 + i = i := by omega
        rw [e0] at hp
        have e2 : start + 32 + i * esz = start + 32 + i * esz := rfl
        simpa [Nat.add_assoc] using hp
  case isFalse hm =>
    have hmagic : pySlice data start (start + 4) = strgMagic := by
      by_contra hc
      exact hm hc
    cases hP : mapper_registry ext (pySlice data start (start + 4)) xc3
        (pySlice data (start + 32) (start + size)) <;> rw [hP] at h <;>
      simp only [except_bind_ok, except_bind_error] at h
    · exact absurd h (by simp)
    case ok p =>
    cases h
    rw [hmagic] at hP
    have hreg : mapper_registry ext strgMagic xc3 = Strings := by
      simp [mapper_registry, strgMagic, infoMagic, xfrmMagic, debiMagic]
    rw [hreg] at hP
    have hp1 : p = .strings (pySlice data (start + 32) (start + size)) :=
      (Except.ok.inj hP).symm
    constructor
    · intro _
      simp [hp1, hmagic]
    · intro hs
      exact absurd hmagic hs

/-- Witness for C4 on the concrete good window: the `STRG` section at
offset 192 holds the single blob entry, and the `GMKA` section at offset 0
holds exactly its one fixed-size entry. -/
theorem claim_C4_wit :
    strgSec0.entries =
      [{ mapped := .strings (pySlice goodWindow (192 + 32) (192 + strgSec0.size)) }] ∧
    gmkaSec0.entries.length = gmkaSec0.count ∧
    ∃ p, mapper_registry extNone gmkaSec0.magic true
        (pySlice goodWindow (0 + 32 + 0 * gmkaSec0.entry_size)
          (0 + 32 + (0 + 1) * gmkaSec0.entry_size)) = .ok p ∧
      gmkaSec0.entries[0]? = some { mapped := p } := by
  refine ⟨(claim_C4 extNone goodWindow true 192 strgSec0 rfl).1 rfl, ?_, ?_⟩
  · exact ((claim_C4 extNone goodWindow true 0 gmkaSec0 rfl).2 (by decide)).1
  · exact ((claim_C4 extNone goodWindow true 0 gmkaSec0 rfl).2 (by decide)).2 0 (by decide)

/-! ## C1: cross-reference resolution -/

theorem resolveEntries_ok {xc3 : Bool} {iE xE : List Entry} {str : List Nat} {base si : Nat} :
    ∀ {es : List Entry} {i : Nat} {es1 : List Entry} {g : List (GKey × Nat × Nat)}
      {bm : List (Nat × Nat × Nat)},
      resolveEntries xc3 iE xE str base si i es = .ok (es1, g, bm) →
      es1.length = es.length ∧
      ∀ j e1, es1[j]? = some e1 →
        ∃ e, es[j]? = some e ∧
        ∃ ie, iE[base + i + j]? = some ie ∧
        ∃ xi, ie.mapped.xfrmIdx? = .ok xi ∧
        ∃ xe, xE[xi]? = some xe ∧
          e1.mapped = e.mapped ∧ e1.info = some ie.mapped ∧ e1.xfrm = some xe.mapped := by
  intro es
  induction es with
  | nil =>
    intro i es1 g bm h
    simp only [resolveEntries, Except.ok.injEq, Prod.mk.injEq] at h
    obtain ⟨h1, h2, h3⟩ := h
    subst h1
    exact ⟨rfl, by intro j e1 hj; simp at hj⟩
  | cons e es ih =>
    intro i es1 g bm h
    rw [resolveEntries] at h
    cases hie : iE[base + i]? <;> rw [hie] at h <;>
      simp only [except_bind_ok, except_bind_error] at h
    · exact absurd h (by simp)
    case some ie =>
    cases hxi : ie.mapped.xfrmIdx? <;> rw [hxi] at h <;>
      simp only [except_bind_ok, except_bind_error] at h
    · exact absurd h (by simp)
    case ok xi =>
    cases hxe : xE[xi]? <;> rw [hxe] at h <;>
      simp only [except_bind_ok, except_bind_error] at h
    · exact absurd h (by simp)
    case some xe =>
    cases hxc : xc3 <;> rw [hxc] at h <;> simp only [Bool.false_eq_true, if_true, if_false,
      reduceIte] at h
    · -- legacy branch
      cases hnid : ie.mapped.nameId? <;> rw [hnid] at h <;>
        simp only [except_bind_ok, except_bind_error] at h
      · exact absurd h (by simp)
      case ok nid =>
      cases hnm : Strings.read str nid <;> rw [hnm] at h <;>
        simp only [except_bind_ok, except_bind_error] at h
      · exact absurd h (by simp)
      case ok nm =>
      cases hrec : resolveEntries false iE xE str base si (i + 1) es <;> rw [hrec] at h <;>
        simp only [except_bind_ok, except_bind_error] at h
      · exact absurd h (by simp)
      case ok trip =>
      obtain ⟨es2, g2, bm2⟩ := trip
      simp only [Except.ok.injEq, Prod.mk.injEq] at h
      obtain ⟨h1, h2, h3⟩ := h
      subst h1
      rw [hxc] at ih
      obtain ⟨hlen, hall⟩ := ih hrec
      refine ⟨by simp [hlen], ?_⟩
      intro j e1 hj
      cases j with
      | zero =>
        simp only [List.getElem?_cons_zero, Option.some.injEq] at hj
        subst hj
        exact ⟨e, by simp, ie, by simpa using hie, xi, hxi, xe, hxe, rfl, rfl, rfl⟩
      | succ j1 =>
        simp only [List.getElem?_cons_succ] at hj
        obtain ⟨e0, he0, ie1, hie1, xi1, hxi1, xe1, hxe1, hm1, hi1, hx1⟩ := hall j1 e1 hj
        have earith : base + (i + 1) + j1 = base + i + (j1 + 1) := by omega
        rw [earith] at hie1
        exact ⟨e0, by simpa using he0, ie1, hie1, xi1, hxi1, xe1, hxe1, hm1, hi1, hx1⟩
    · -- modern branch
      cases hh : ie.mapped.hashId? <;> rw [hh] at h <;>
        simp only [except_bind_ok, except_bind_error] at h
      · exact absurd h (by simp)
      case ok hsh =>
      cases hbd : ie.mapped.bdatId? <;> rw [hbd] at h <;>
        simp only [except_bind_ok, except_bind_error] at h
      · exact absurd h (by simp)
      case ok bd =>
      cases hrec : resolveEntries true iE xE str base si (i + 1) es <;> rw [hrec] at h <;>
        simp only [except_bind_ok, except_bind_error] at h
      · exact absurd h (by simp)
      case ok trip =>
      obtain ⟨es2, g2, bm2⟩ := trip
      simp only [Except.ok.injEq, Prod.mk.injEq] at h
      obtain ⟨h1, h2, h3⟩ := h
      subst h1
      rw [hxc] at ih
      obtain ⟨hlen, hall⟩ := ih hrec
      refine ⟨by simp [hlen], ?_⟩
      intro j e1 hj
      cases j with
      | zero =>
        simp only [List.getElem?_cons_zero, Option.some.injEq] at hj
        subst hj
        exact ⟨e, by simp, ie, by simpa using hie, xi, hxi, xe, hxe, rfl, rfl, rfl⟩
      | succ j1 =>
        simp only [List.getElem?_cons_succ] at hj
        obtain ⟨e0, he0, ie1, hie1, xi1, hxi1, xe1, hxe1, hm1, hi1, hx1⟩ := hall j1 e1 hj
        have earith : base + (i + 1) + j1 = base + i + (j1 + 1) := by omega
        rw [earith] at hie1
        exact ⟨e0, by simpa using he0, ie1, hie1, xi1, hxi1, xe1, hxe1, hm1, hi1, hx1⟩

/-- In the modern format, when the `INFO` section's entries are all modern
`Info` payloads (which the built-in mapper guarantees), the only error the
cross-reference loop can raise is `unresolvedReference` — an out-of-range
info-base or transform index. -/
theorem resolveEntries_error_modern {iE xE : List Entry} {str : List Nat} {base si : Nat}
    (hty : ∀ e ∈ iE, ∃ a b c d h5, e.mapped = .info a b c d h5) :
    ∀ {es : List Entry} {i : Nat} {err : DecodeError},
      resolveEntries true iE xE str base si i es = .error err →
      err = .unresolvedReference := by
  intro es
  induction es with
  | nil => intro i err h; simp [resolveEntries] at h
  | cons e es ih =>
    intro i err h
    rw [resolveEntries] at h
    cases hie : iE[base + i]? <;> rw [hie] at h <;>
      simp only [except_bind_ok, except_bind_error] at h
    · exact (Except.error.inj h).symm
    case some ie =>
    obtain ⟨a, b, c, d, h5, hinfo⟩ := hty ie (List.getElem?_mem hie)
    rw [hinfo] at h
    simp only [Payload.xfrmIdx?, except_bind_ok] at h
    cases hxe : xE[b]? <;> rw [hxe] at h <;>
      simp only [except_bind_ok, except_bind_error] at h
    · exact (Except.error.inj h).symm
    case some xe =>
    simp only [if_true, Payload.hashId?, Payload.bdatId?, except_bind_ok, reduceIte] at h
    cases hrec : resolveEntries true iE xE str base si (i + 1) es <;> rw [hrec] at h <;>
      simp only [except_bind_ok, except_bind_error] at h
    case error e1 =>
      rw [ih hrec] at h
      exact (Except.error.inj h).symm
    case ok trip =>
      obtain ⟨es2, g2, bm2⟩ := trip
      simp at h

theorem resolveSections_ok {xc3 : Bool} {iE xE : List Entry} {str : List Nat} :
    ∀ {ss : List Section} {si : Nat} {ss1 : List Section} {g : List (GKey × Nat × Nat)}
      {bm : List (Nat × Nat × Nat)},
      resolveSections xc3 iE xE str si ss = .ok (ss1, g, bm) →
      ss1.length = ss.length ∧
      ∀ j s, ss[j]? = some s →
        ∃ s1, ss1[j]? = some s1 ∧
          (s.magic ∈ SPECIAL_MAGIC → s1 = s) ∧
          (s.magic ∉ SPECIAL_MAGIC →
            s1.magic = s.magic ∧ s1.info_idx = s.info_idx ∧ s1.size = s.size ∧
            ∃ g1 b1, resolveEntries xc3 iE xE str s.info_idx (si + j) 0 s.entries =
              .ok (s1.entries, g1, b1)) := by
  intro ss
  induction ss with
  | nil =>
    intro si ss1 g bm h
    simp only [resolveSections, Except.ok.injEq, Prod.mk.injEq] at h
    obtain ⟨h1, h2, h3⟩ := h
    subst h1
    exact ⟨rfl, by intro j s hj; simp at hj⟩
  | cons s ss ih =>
    intro si ss1 g bm h
    rw [resolveSections] at h
    split at h
    case isTrue hsp =>
      cases hrec : resolveSections xc3 iE xE str (si + 1) ss <;> rw [hrec] at h <;>
        simp only [except_bind_ok, except_bind_error] at h
      · exact absurd h (by simp)
      case ok trip =>
      obtain ⟨ss2, g2, bm2⟩ := trip
      simp only [Except.ok.injEq, Prod.mk.injEq] at h
      obtain ⟨h1, h2, h3⟩ := h
      subst h1
      obtain ⟨hlen, hall⟩ := ih hrec
      refine ⟨by simp [hlen], ?_⟩
      intro j t hj
      cases j with
      | zero =>
        simp only [List.getElem?_cons_zero, Option.some.injEq] at hj
        subst hj
        exact ⟨s, by simp, fun _ => rfl, fun hns => absurd hsp hns⟩
      | succ j1 =>
        simp only [List.getElem?_cons_succ] at hj
        obtain ⟨s1, hs1, hspec, hnspec⟩ := hall j1 t hj
        refine ⟨s1, by simpa using hs1, hspec, ?_⟩
        intro hns
        obtain ⟨hm1, hi1, hz1, g1, b1, hres⟩ := hnspec hns
        have earith : si + 1 + j1 = si + (j1 + 1) := by omega
        rw [earith] at hres
        exact ⟨hm1, hi1, hz1, g1, b1, hres⟩
    case isFalse hsp =>
      cases hent : resolveEntries xc3 iE xE str s.info_idx si 0 s.entries <;> rw [hent] at h <;>
        simp only [except_bind_ok, except_bind_error] at h
      · exact absurd h (by simp)
      case ok tripE =>
      obtain ⟨es1, g1, b1⟩ := tripE
      cases hrec : resolveSections xc3 iE xE str (si + 1) ss <;> rw [hrec] at h <;>
        simp only [except_bind_ok, except_bind_error] at h
      · exact absurd h (by simp)
      case ok trip =>
      obtain ⟨ss2, g2, bm2⟩ := trip
      simp only [Except.ok.injEq, Prod.mk.injEq] at h
      obtain ⟨h1, h2, h3⟩ := h
      subst h1
      obtain ⟨hlen, hall⟩ := ih hrec
      refine ⟨by simp [hlen], ?_⟩
      intro j t hj
      cases j with
      | zero =>
        simp only [List.getElem?_cons_zero, Option.some.injEq] at hj
        subst hj
        refine ⟨{ s with entries := es1 }, by simp, fun hsp1 => absurd hsp1 hsp, ?_⟩
        intro _
        exact ⟨rfl, rfl, rfl, g1, b1, by simpa using hent⟩
      | succ j1 =>
        simp only [List.getElem?_cons_succ] at hj
        obtain ⟨s1, hs1, hspec, hnspec⟩ := hall j1 t hj
        refine ⟨s1, by simpa using hs1, hspec, ?_⟩
        intro hns
        obtain ⟨hm1, hi1, hz1, g3, b3, hres⟩ := hnspec hns
        have earith : si + 1 + j1 = si + (j1 + 1) := by omega
        rw [earith] at hres
        exact ⟨hm1, hi1, hz1, g3, b3, hres⟩

theorem modifyAt_length (f : α → α) : ∀ (k : Nat) (l : List α),
    (modifyAt f k l).length = l.length := by
  intro k
  induction k with
  | zero => intro l; cases l <;> simp [modifyAt]
  | succ n ih => intro l; cases l <;> simp [modifyAt, ih]

theorem modifyAt_getElem? (f : α → α) : ∀ (k : Nat) (l : List α) (j : Nat),
    (modifyAt f k l)[j]? = if j = k then (l[j]?).map f else l[j]? := by
  intro k
  induction k with
  | zero =>
    intro l j
    cases l with
    | nil => simp [modifyAt]
    | cons a as =>
      cases j with
      | zero => simp [modifyAt]
      | succ j1 => simp [modifyAt]
  | succ n ih =>
    intro l j
    cases l with
    | nil => simp [modifyAt]
    | cons a as =>
      cases j with
      | zero => simp [modifyAt]
      | succ j1 => simpa [modifyAt] using ih as j1

theorem corePreserved_refl (secs : List Section) : CorePreserved secs secs := by
  refine ⟨rfl, ?_⟩
  intro j s hj
  exact ⟨s, hj, rfl, rfl, rfl, rfl, fun k e hk => ⟨e, hk, rfl, rfl, rfl⟩⟩

theorem corePreserved_trans {a b c : List Section}
    (h1 : CorePreserved a b) (h2 : CorePreserved b c) : CorePreserved a c := by
  obtain ⟨hl1, h1⟩ := h1
  obtain ⟨hl2, h2⟩ := h2
  refine ⟨by omega, ?_⟩
  intro j s hj
  obtain ⟨s1, hs1, hm1, hz1, hi1, hel1, he1⟩ := h1 j s hj
  obtain ⟨s2, hs2, hm2, hz2, hi2, hel2, he2⟩ := h2 j s1 hs1
  refine ⟨s2, hs2, hm2.trans hm1, hz2.trans hz1, hi2.trans hi1, hel2.trans hel1, ?_⟩
  intro k e hk
  obtain ⟨e1, he1k, ha1, hb1, hc1⟩ := he1 k e hk
  obtain ⟨e2, he2k, ha2, hb2, hc2⟩ := he2 k e1 he1k
  exact ⟨e2, he2k, ha2.trans ha1, hb2.trans hb1, hc2.trans hc1⟩

theorem corePreserved_setName (secs : List Section) (si i : Nat) (nm : List Char) :
    CorePreserved secs
      (modifyAt
        (fun s => { s with
          entries := modifyAt (fun en => { en with name := some nm }) i s.entries })
        si secs) := by
  refine ⟨modifyAt_length _ _ _, ?_⟩
  intro j s hj
  rw [modifyAt_getElem?]
  by_cases hji : j = si
  · subst hji
    rw [hj, if_pos rfl]
    refine ⟨_, rfl, rfl, rfl, rfl, modifyAt_length _ _ _, ?_⟩
    intro k e hk
    rw [modifyAt_getElem?]
    by_cases hki : k = i
    · subst hki
      rw [hk, if_pos rfl]
      exact ⟨_, rfl, rfl, rfl, rfl⟩
    · rw [if_neg hki, hk]
      exact ⟨e, rfl, rfl, rfl, rfl⟩
  · rw [if_neg hji, hj]
    exact ⟨s, rfl, rfl, rfl, rfl, rfl, fun k e hk => ⟨e, hk, rfl, rfl, rfl⟩⟩

theorem applyDebi_ok_core {str : List Nat} {gmap : List (GKey × Nat × Nat)} :
    ∀ {des : List Entry} {secs secs2 : List Section},
      applyDebi str gmap des secs = .ok secs2 → CorePreserved secs secs2 := by
  intro des
  induction des with
  | nil =>
    intro secs secs2 h
    simp only [applyDebi, Except.ok.injEq] at h
    subst h
    exact corePreserved_refl secs
  | cons e des ih =>
    intro secs secs2 h
    rw [applyDebi] at h
    cases hmp : e.mapped <;> rw [hmp] at h <;>
      simp only [except_bind_ok, except_bind_error] at h
    case debug g t s1 p =>
      cases hg : dictGet gmap (GKey.num g) <;> rw [hg] at h
      · exact ih h
      case some pos =>
        cases hnm : Strings.read str s1 <;> rw [hnm] at h <;>
          simp only [except_bind_ok, except_bind_error] at h
        · exact absurd h (by simp)
        case ok nm =>
          exact corePreserved_trans (corePreserved_setName secs pos.1 pos.2 nm) (ih h)
    all_goals exact absurd h (by simp)

theorem getElem?_some_of_lt {l : List α} {i : Nat} (h : i < l.length) :
    ∃ a, l[i]? = some a := by
  cases hl : l[i]? with
  | none => exact absurd (List.getElem?_eq_none_iff.mp hl) (by omega)
  | some a => exact ⟨a, rfl⟩

/-- Entry facts transported through the resolution pass and any
core-preserving later pass (the debug overlay or the identity). -/
theorem resolvedSections_entry_facts {xc3 : Bool} {iE xE : List Entry} {str : List Nat}
    {sections sections1 final : List Section} {g : List (GKey × Nat × Nat)}
    {bm : List (Nat × Nat × Nat)}
    (hres : resolveSections xc3 iE xE str 0 sections = .ok (sections1, g, bm))
    (hcore : CorePreserved sections1 final) :
    ∀ (si : Nat) (s : Section), sections[si]? = some s → s.magic ∉ SPECIAL_MAGIC →
      ∃ s1 : Section, final[si]? = some s1 ∧ s1.entries.length = s.entries.length ∧
        ∀ (i : Nat) (e1 : Entry), s1.entries[i]? = some e1 →
          ∃ ie : Entry, iE[s.info_idx + i]? = some ie ∧ e1.info = some ie.mapped ∧
          ∃ xi : Nat, ie.mapped.xfrmIdx? = .ok xi ∧
          ∃ xe : Entry, xE[xi]? = some xe ∧ e1.xfrm = some xe.mapped := by
  intro si s hsi hns
  obtain ⟨hlen1, hall1⟩ := resolveSections_ok hres
  obtain ⟨smid, hsmid, _, hnspec⟩ := hall1 si s hsi
  obtain ⟨hm1, hi1, hz1, g1, b1, hent⟩ := hnspec hns
  obtain ⟨hlen2, hall2⟩ := hcore
  obtain ⟨s1, hs1, hm2, hz2, hi2, helen2, hE2⟩ := hall2 si smid hsmid
  obtain ⟨helen1, hEnt1⟩ := resolveEntries_ok hent
  refine ⟨s1, hs1, by rw [helen2, helen1], ?_⟩
  intro i e1 he1
  have hlt : i < s1.entries.length := by
    by_contra hge
    rw [List.getElem?_eq_none_iff.mpr (by omega)] at he1
    cases he1
  obtain ⟨emid, hemid⟩ := getElem?_some_of_lt (show i < smid.entries.length by omega)
  obtain ⟨e2, he2, hmm, hii, hxx⟩ := hE2 i emid hemid
  have he12 : e2 = e1 := Option.some.inj (he2.symm.trans he1)
  subst he12
  obtain ⟨e0, he0, ie, hie, xi, hxi, xe, hxe, hmap0, hinfo0, hxfrm0⟩ := hEnt1 i emid hemid
  have earith : s.info_idx + 0 + i = s.info_idx + i := by omega
  rw [earith] at hie
  exact ⟨ie, hie, by rw [hii, hinfo0], xi, hxi, xe, hxe, by rw [hxx, hxfrm0]⟩

/-- C1.  After successful container construction, every entry of every
non-special section resolves its info link to
`INFO.entries[section.info_idx + entryIndex]` and its transform link to
`XFRM.entries[infoPayload.xfrm_idx]` (first conjunct; success forces every
such index in range, so an out-of-range index can never be silently
truncated or wrapped).  Moreover, in the modern format the only error the
cross-reference loop can raise — in particular when an info-base or
transform index is out of range — is `unresolvedReference`, the
`IndexError` of the out-of-range list access (second conjunct). -/
theorem claim_C1 :
    (∀ (xc3 : Bool) (v : Nat) (sections : List Section) (lvb : Lvb) (infoS xfrmS : Section),
      resolveAll xc3 v sections = .ok lvb →
      findMagic sections infoMagic = some infoS →
      findMagic sections xfrmMagic = some xfrmS →
      ∀ (si : Nat) (s : Section), sections[si]? = some s → s.magic ∉ SPECIAL_MAGIC →
        ∃ s1 : Section, lvb.sections[si]? = some s1 ∧
          s1.entries.length = s.entries.length ∧
          ∀ (i : Nat) (e1 : Entry), s1.entries[i]? = some e1 →
            ∃ ie : Entry, infoS.entries[s.info_idx + i]? = some ie ∧
              e1.info = some ie.mapped ∧
            ∃ xi : Nat, ie.mapped.xfrmIdx? = .ok xi ∧
            ∃ xe : Entry, xfrmS.entries[xi]? = some xe ∧ e1.xfrm = some xe.mapped) ∧
    (∀ (iE xE : List Entry) (str : List Nat) (base si i : Nat) (es : List Entry)
        (err : DecodeError),
      (∀ e ∈ iE, ∃ a b c d h5, e.mapped = .info a b c d h5) →
      resolveEntries true iE xE str base si i es = .error err →
      err = .unresolvedReference) := by
  constructor
  · intro xc3 v sections lvb infoS xfrmS h hinfo hxfrm
    simp only [resolveAll, hinfo, hxfrm, except_bind_ok] at h
    cases hstrg : findMagic sections strgMagic <;> rw [hstrg] at h <;>
      simp only [except_bind_ok, except_bind_error] at h
    · exact absurd h (by simp)
    case some strg =>
    cases hstre : strg.entries[0]? <;> rw [hstre] at h <;>
      simp only [except_bind_ok, except_bind_error] at h
    · exact absurd h (by simp)
    case some strE =>
    cases hbuf : strE.mapped <;> rw [hbuf] at h <;>
      simp only [except_bind_ok, except_bind_error] at h
    case strings buf =>
      cases hres : resolveSections xc3 infoS.entries xfrmS.entries buf 0 sections <;>
        rw [hres] at h <;> simp only [except_bind_ok, except_bind_error] at h
      · exact absurd h (by simp)
      case ok trip =>
      obtain ⟨sections1, gmap, bmap⟩ := trip
      cases hxc : xc3 <;> rw [hxc] at h <;> rw [hxc] at hres <;>
        simp only [Bool.false_eq_true, reduceIte] at h
      · -- legacy: no overlay
        simp only [except_bind_ok, Except.ok.injEq] at h
        subst h
        exact resolvedSections_entry_facts hres (corePreserved_refl sections1)
      · -- modern: overlay if DEBI present
        cases hdebi : findMagic sections debiMagic <;> rw [hdebi] at h <;> dsimp only at h
        · simp only [except_bind_ok, Except.ok.injEq] at h
          subst h
          exact resolvedSections_entry_facts hres (corePreserved_refl sections1)
        case some d =>
          cases hap : applyDebi buf gmap d.entries sections1 <;> rw [hap] at h <;>
            simp only [except_bind_ok, except_bind_error] at h
          · exact absurd h (by simp)
          case ok sections2 =>
            simp only [Except.ok.injEq] at h
            subst h
            exact resolvedSections_entry_facts hres (applyDebi_ok_core hap)
    all_goals exact absurd h (by simp)
  · intro iE xE str base si i es err hty h
    exact resolveEntries_error_modern hty h

/-- Witness for C1: in the concrete resolved container, the sole `GMKA`
entry's links are `INFO.entries[0]` and `XFRM.entries[0]`; and a concrete
out-of-range info index raises exactly `unresolvedReference`. -/
theorem claim_C1_wit :
    (∃ s1 : Section, goodLvb.sections[0]? = some s1 ∧
        s1.entries.length = gmkaSec0.entries.length ∧
        ∀ (i : Nat) (e1 : Entry), s1.entries[i]? = some e1 →
          ∃ ie : Entry, infoSec0.entries[gmkaSec0.info_idx + i]? = some ie ∧
            e1.info = some ie.mapped ∧
          ∃ xi : Nat, ie.mapped.xfrmIdx? = .ok xi ∧
          ∃ xe : Entry, xfrmSec0.entries[xi]? = some xe ∧ e1.xfrm = some xe.mapped) ∧
    DecodeError.unresolvedReference = DecodeError.unresolvedReference := by
  constructor
  · exact claim_C1.1 true 5 goodSecs goodLvb infoSec0 xfrmSec0 rfl rfl rfl 0 gmkaSec0 rfl
      (by decide)
  · exact claim_C1.2 [] [] [] 5 0 0 [{ mapped := .default [] }] .unresolvedReference
      (by intro e he; simp at he) rfl

/-! ## C6: the debug-name overlay -/

theorem applyDebi_name_spec {str : List Nat} {gmap : List (GKey × Nat × Nat)} :
    ∀ {des : List Entry} {secs secs2 : List Section},
      applyDebi str gmap des secs = .ok secs2 →
      ∀ (si i : Nat) (s : Section) (e : Entry),
        secs[si]? = some s → s.entries[i]? = some e →
        ∃ (s2 : Section) (e2 : Entry), secs2[si]? = some s2 ∧ s2.entries[i]? = some e2 ∧
          e2.mapped = e.mapped ∧ e2.info = e.info ∧ e2.xfrm = e.xfrm ∧
          ((debiMatchesAt gmap des (si, i)).getLast? = none → e2.name = e.name) ∧
          (∀ sid, (debiMatchesAt gmap des (si, i)).getLast? = some sid →
            ∃ nm, Strings.read str sid = .ok nm ∧ e2.name = some nm) := by
  intro des
  induction des with
  | nil =>
    intro secs secs2 h si i s e hsi hie
    simp only [applyDebi, Except.ok.injEq] at h
    subst h
    refine ⟨s, e, hsi, hie, rfl, rfl, rfl, fun _ => rfl, ?_⟩
    intro sid hlast
    simp [debiMatchesAt] at hlast
  | cons e0 des ih =>
    intro secs secs2 h si i s e hsi hie
    rw [applyDebi] at h
    cases hmp : e0.mapped <;> rw [hmp] at h <;>
      simp only [except_bind_ok, except_bind_error] at h
    case debug g t sid0 p =>
      have hmatches : ∀ q : Nat × Nat, debiMatchesAt gmap (e0 :: des) q =
          if dictGet gmap (GKey.num g) = some q then
            sid0 :: debiMatchesAt gmap des q
          else debiMatchesAt gmap des q := by
        intro q
        by_cases hc : dictGet gmap (GKey.num g) = some q <;>
          simp [debiMatchesAt, List.filterMap_cons, hmp, hc]
      cases hg : dictGet gmap (GKey.num g) <;> rw [hg] at h
      · obtain ⟨s2, e2, hs2, he2, hm2, hi2, hx2, hnone, hsome⟩ := ih h si i s e hsi hie
        have hrw : debiMatchesAt gmap (e0 :: des) (si, i) = debiMatchesAt gmap des (si, i) := by
          rw [hmatches, if_neg (by simp [hg])]
        rw [hrw]
        exact ⟨s2, e2, hs2, he2, hm2, hi2, hx2, hnone, hsome⟩
      case some pos =>
        cases hnm : Strings.read str sid0 <;> rw [hnm] at h <;>
          simp only [except_bind_ok, except_bind_error] at h
        · exact absurd h (by simp)
        case ok nm =>
        by_cases hsip : si = pos.1
        · by_cases hip : i = pos.2
          · -- the record rewrites exactly this entry
            have hsM : (modifyAt
                (fun s => { s with
                  entries := modifyAt (fun en => { en with name := some nm }) pos.2 s.entries })
                pos.1 secs)[si]? =
                some { s with
                  entries := modifyAt (fun en => { en with name := some nm }) pos.2 s.entries } := by
              rw [modifyAt_getElem?, if_pos hsip]
              rw [hsi]
              rfl
            have heM : ({ s with
                entries := modifyAt (fun en => { en with name := some nm }) pos.2
                  s.entries } : Section).entries[i]? =
                some { e with name := some nm } := by
              show (modifyAt (fun en => { en with name := some nm }) pos.2 s.entries)[i]? = _
              rw [modifyAt_getElem?, if_pos hip, hie]
              rfl
            obtain ⟨s2, e2, hs2, he2, hm2, hi2, hx2, hnone, hsome⟩ := ih h si i _ _ hsM heM
            refine ⟨s2, e2, hs2, he2, hm2, hi2, hx2, ?_, ?_⟩
            · intro habs
              rw [hmatches, if_pos (by rw [hg, hsip, hip])] at habs
              simp at habs
            · intro sid hlast
              rw [hmatches, if_pos (by rw [hg, hsip, hip])] at hlast
              cases hrest : debiMatchesAt gmap des (si, i) with
              | nil =>
                rw [hrest] at hlast
                simp only [List.getLast?_singleton, Option.some.injEq] at hlast
                subst hlast
                exact ⟨nm, hnm, hnone (by rw [hrest]; rfl)⟩
              | cons r rs =>
                rw [hrest] at hlast
                rw [List.getLast?_cons_cons] at hlast
                exact hsome sid (by rw [hrest]; exact hlast)
          · -- same section, a different entry index
            have hsM : (modifyAt
                (fun s => { s with
                  entries := modifyAt (fun en => { en with name := some nm }) pos.2 s.entries })
                pos.1 secs)[si]? =
                some { s with
                  entries := modifyAt (fun en => { en with name := some nm }) pos.2 s.entries } := by
              rw [modifyAt_getElem?, if_pos hsip, hsi]
              rfl
            have heM : ({ s with
                entries := modifyAt (fun en => { en with name := some nm }) pos.2
                  s.entries } : Section).entries[i]? = some e := by
              show (modifyAt (fun en => { en with name := some nm }) pos.2 s.entries)[i]? = _
              rw [modifyAt_getElem?, if_neg hip, hie]
            obtain ⟨s2, e2, hs2, he2, hm2, hi2, hx2, hnone, hsome⟩ := ih h si i _ _ hsM heM
            have hrw : debiMatchesAt gmap (e0 :: des) (si, i) =
                debiMatchesAt gmap des (si, i) := by
              rw [hmatches, if_neg]
              rw [hg]
              intro hc
              exact hip (congrArg Prod.snd (Option.some.inj hc)).symm
            rw [hrw]
            exact ⟨s2, e2, hs2, he2, hm2, hi2, hx2, hnone, hsome⟩
        · -- a different section
          have hsM : (modifyAt
              (fun s => { s with
                entries := modifyAt (fun en => { en with name := some nm }) pos.2 s.entries })
              pos.1 secs)[si]? = some s := by
            rw [modifyAt_getElem?, if_neg hsip, hsi]
          obtain ⟨s2, e2, hs2, he2, hm2, hi2, hx2, hnone, hsome⟩ := ih h si i _ _ hsM hie
          have hrw : debiMatchesAt gmap (e0 :: des) (si, i) =
              debiMatchesAt gmap des (si, i) := by
            rw [hmatches, if_neg]
            rw [hg]
            intro hc
            exact hsip (congrArg Prod.fst (Option.some.inj hc)).symm
          rw [hrw]
          exact ⟨s2, e2, hs2, he2, hm2, hi2, hx2, hnone, hsome⟩
    all_goals exact absurd h (by simp)

theorem applyDebi_total {str : List Nat} {gmap : List (GKey × Nat × Nat)} :
    ∀ {des : List Entry} {secs : List Section},
      (∀ e ∈ des, ∃ g t sid p, e.mapped = .debug g t sid p) →
      (∀ e ∈ des, ∀ g t sid p, e.mapped = .debug g t sid p →
        ∀ pos, dictGet gmap (GKey.num g) = some pos →
          ∃ nm, Strings.read str sid = .ok nm) →
      ∃ secs2, applyDebi str gmap des secs = .ok secs2 := by
  intro des
  induction des with
  | nil => intro secs _ _; exact ⟨secs, rfl⟩
  | cons e0 des ih =>
    intro secs hty hread
    obtain ⟨g, t, sid, p, hmp⟩ := hty e0 (by simp)
    rw [applyDebi, hmp]
    simp only [except_bind_ok]
    cases hg : dictGet gmap (GKey.num g) with
    | none =>
      exact ih (fun e he => hty e (by simp [he])) fun e he => hread e (by simp [he])
    | some pos =>
      obtain ⟨nm, hnm⟩ := hread e0 (by simp) g t sid p hmp pos hg
      rw [hnm]
      simp only [except_bind_ok]
      exact ih (fun e he => hty e (by simp [he])) fun e he => hread e (by simp [he])

/-- C6 (amended).  In the modern format with a `DEBI` section present,
after a successful decode each entry's display name is the string read at
the string id of the *last* `DEBI` record whose `gimmick_id` resolves to
that entry through the hash lookup table; an entry matched by no record
keeps its previous (absent) name, every record whose `gimmick_id` matches
no indexed entry changes nothing, and — as long as every matched record's
string read succeeds — the overlay raises no error (second conjunct), so
unmatched records are silently skipped.  (The original claim, which reads
each matched entry's name from *every* matching record, fails when two
records share a `gimmick_id`; see the counterexample.) -/
theorem claim_C6 :
    (∀ (str : List Nat) (gmap : List (GKey × Nat × Nat)) (des : List Entry)
        (secs secs2 : List Section),
      applyDebi str gmap des secs = .ok secs2 →
      ∀ (si i : Nat) (s : Section) (e : Entry),
        secs[si]? = some s → s.entries[i]? = some e →
        ∃ (s2 : Section) (e2 : Entry), secs2[si]? = some s2 ∧ s2.entries[i]? = some e2 ∧
          e2.mapped = e.mapped ∧ e2.info = e.info ∧ e2.xfrm = e.xfrm ∧
          ((debiMatchesAt gmap des (si, i)).getLast? = none → e2.name = e.name) ∧
          (∀ sid, (debiMatchesAt gmap des (si, i)).getLast? = some sid →
            ∃ nm, Strings.read str sid = .ok nm ∧ e2.name = some nm)) ∧
    (∀ (str : List Nat) (gmap : List (GKey × Nat × Nat)) (des : List Entry)
        (secs : List Section),
      (∀ e ∈ des, ∃ g t sid p, e.mapped = .debug g t sid p) →
      (∀ e ∈ des, ∀ g t sid p, e.mapped = .debug g t sid p →
        ∀ pos, dictGet gmap (GKey.num g) = some pos →
          ∃ nm, Strings.read str sid = .ok nm) →
      ∃ secs2, applyDebi str gmap des secs = .ok secs2) := by
  constructor
  · intro str gmap des secs secs2 h si i s e hsi hie
    exact applyDebi_name_spec h si i s e hsi hie
  · intro str gmap des secs hty hread
    exact applyDebi_total hty hread

/-- C6 counterexample.  Decoding `c6Buf` — whose `DEBI` section holds two
records with gimmick id 17, string ids 0 (the string `"a"`) and 2 (the
string `"b"`) — succeeds, record 0 matches the entry indexed under hash 17
(position `(0, 0)`), yet that entry's final display name is `"b"`, not the
string `"a"` read at record 0's string id: the claim as stated fails for
record 0. -/
theorem claim_C6_cex :
    Lvb.init extNone 400 c6Buf = some (.ok c6Lvb) ∧
    c6DebiSec.entries[0]? = some { mapped := .debug 17 0 0 0 } ∧
    gmkaResolvedEntry.info = some (.info 7 0 1 2 17) ∧
    dictGet c6Lvb.gimmick_map (GKey.num 17) = some (0, 0) ∧
    Strings.read [97, 0, 98, 0] 0 = .ok ['a'] ∧
    (c6Lvb.sections.map fun s => s.entries.map (·.name)) =
      [[some ['b']], [none], [none], [none], [none, none]] ∧
    some ['b'] ≠ some (['a'] : List Char) := by
  exact ⟨rfl, rfl, rfl, rfl, rfl, rfl, by decide⟩

/-- Witness for C6 (amended) at concrete inputs: with the two same-id
records of `c6DebiSec`, the matched entry's final name is the string at the
last record's string id 2 (`"b"`); and an unmatched record (gimmick id 99)
is skipped with no error. -/
theorem claim_C6_wit :
    (∃ (s2 : Section) (e2 : Entry),
      (applyDebi [97, 0, 98, 0] [(GKey.num 17, 0, 0)] c6DebiSec.entries
        [{ gmkaSec0 with entries := [gmkaResolvedEntry] }]).toOption.bind (·[0]?) = some s2 ∧
      s2.entries[0]? = some e2 ∧
      e2.mapped = gmkaResolvedEntry.mapped ∧ e2.info = gmkaResolvedEntry.info ∧
      e2.xfrm = gmkaResolvedEntry.xfrm ∧
      (∃ nm, Strings.read [97, 0, 98, 0] 2 = .ok nm ∧ e2.name = some nm)) ∧
    (∃ secs2, applyDebi [97, 0, 98, 0] [(GKey.num 17, 0, 0)]
      [{ mapped := .debug 99 0 50 0 }]
      [{ gmkaSec0 with entries := [gmkaResolvedEntry] }] = .ok secs2) := by
  constructor
  · obtain ⟨s2, e2, hs2, he2, hm, hi, hx, hnone, hsome⟩ :=
      claim_C6.1 [97, 0, 98, 0] [(GKey.num 17, 0, 0)] c6DebiSec.entries
        [{ gmkaSec0 with entries := [gmkaResolvedEntry] }] _ rfl 0 0
        { gmkaSec0 with entries := [gmkaResolvedEntry] } gmkaResolvedEntry rfl rfl
    obtain ⟨nm, hnm, hname⟩ := hsome 2 rfl
    exact ⟨s2, e2, hs2, he2, hm, hi, hx, nm, hnm, hname⟩
  · refine claim_C6.2 [97, 0, 98, 0] [(GKey.num 17, 0, 0)]
      [{ mapped := .debug 99 0 50 0 }] [{ gmkaSec0 with entries := [gmkaResolvedEntry] }]
      ?_ ?_
    · intro e he
      simp only [List.mem_singleton] at he
      subst he
      exact ⟨99, 0, 50, 0, rfl⟩
    · intro e he g t sid p hmp pos hd
      simp only [List.mem_singleton] at he
      subst he
      cases hmp
      simp [dictGet] at hd

/-! ## C7: a failing name read aborts the whole decode -/

/-- C7 (amended).  A failure while reading one display name from the string
table is *not* confined to that name: the error propagates and the whole
container construction fails with it.  First conjunct: in the modern
format, an error in the debug-name overlay becomes the result of
`resolveAll`.  Second conjunct: a matched record whose string read fails
aborts the overlay with that read's error.  Third conjunct: in the legacy
format, an error in the cross-reference loop (where names are read) becomes
the result of `resolveAll`.  (The claim as stated — decode still completes
with the name absent — fails; see the counterexample.) -/
theorem claim_C7 :
    (∀ (v : Nat) (sections : List Section) (infoS xfrmS strg d : Section) (strE : Entry)
        (buf : List Nat) (secs1 : List Section) (gmap : List (GKey × Nat × Nat))
        (bmap : List (Nat × Nat × Nat)) (err : DecodeError),
      findMagic sections infoMagic = some infoS →
      findMagic sections xfrmMagic = some xfrmS →
      findMagic sections strgMagic = some strg →
      strg.entries[0]? = some strE → strE.mapped = .strings buf →
      resolveSections true infoS.entries xfrmS.entries buf 0 sections = .ok (secs1, gmap, bmap) →
      findMagic sections debiMagic = some d →
      applyDebi buf gmap d.entries secs1 = .error err →
      resolveAll true v sections = .error err) ∧
    (∀ (str : List Nat) (gmap : List (GKey × Nat × Nat)) (e0 : Entry) (des : List Entry)
        (g t sid p : Nat) (pos : Nat × Nat) (err : DecodeError) (secs : List Section),
      e0.mapped = .debug g t sid p →
      dictGet gmap (GKey.num g) = some pos →
      Strings.read str sid = .error err →
      applyDebi str gmap (e0 :: des) secs = .error err) ∧
    (∀ (v : Nat) (sections : List Section) (infoS xfrmS strg : Section) (strE : Entry)
        (buf : List Nat) (err : DecodeError),
      findMagic sections infoMagic = some infoS →
      findMagic sections xfrmMagic = some xfrmS →
      findMagic sections strgMagic = some strg →
      strg.entries[0]? = some strE → strE.mapped = .strings buf →
      resolveSections false infoS.entries xfrmS.entries buf 0 sections = .error err →
      resolveAll false v sections = .error err) := by
  refine ⟨?_, ?_, ?_⟩
  · intro v sections infoS xfrmS strg d strE buf secs1 gmap bmap err
      hinfo hxfrm hstrg hstre hbuf hres hdebi hap
    simp [resolveAll, hinfo, hxfrm, hstrg, hstre, hbuf, hres, hdebi, hap]
  · intro str gmap e0 des g t sid p pos err secs hmp hg hread
    rw [applyDebi, hmp]
    simp only [except_bind_ok]
    rw [hg, hread]
    rfl
  · intro v sections infoS xfrmS strg strE buf err hinfo hxfrm hstrg hstre hbuf hres
    simp [resolveAll, hinfo, hxfrm, hstrg, hstre, hbuf, hres]

/-- C7 counterexample.  `c7Buf` differs from `goodBuf` only in the `DEBI`
record's string id (10, outside the 4-byte blob, instead of 2): the string
read fails with `offsetOutOfRange` and the *whole* decode returns that
error — construction does not complete with the name treated as absent,
although the same buffer with a readable string id decodes fully. -/
theorem claim_C7_cex :
    Strings.read [97, 0, 98, 0] 10 = .error .offsetOutOfRange ∧
    Lvb.init extNone 400 c7Buf = some (.error .offsetOutOfRange) ∧
    Lvb.init extNone 400 goodBuf = some (.ok goodLvb) := ⟨rfl, rfl, rfl⟩

/-- Witness for C7 (amended) at concrete inputs: the failing overlay of
`c7Secs` aborts `resolveAll` (modern), a concrete matched record with an
unreadable string id aborts `applyDebi`, and a legacy `INFO` entry with an
unreadable `name_id` aborts `resolveAll` (legacy). -/
theorem claim_C7_wit :
    resolveAll true 5 c7Secs = .error .offsetOutOfRange ∧
    applyDebi [97, 0, 98, 0] [(GKey.num 17, 0, 0)] [{ mapped := .debug 17 0 10 0 }]
      [{ gmkaSec0 with entries := [gmkaResolvedEntry] }] = .error .offsetOutOfRange ∧
    resolveAll false 4 legacyBadSecs = .error .offsetOutOfRange := by
  refine ⟨?_, ?_, ?_⟩
  · exact claim_C7.1 5 c7Secs infoSec0 xfrmSec0 strgSec0 c7DebiSec _ [97, 0, 98, 0]
      [{ gmkaSec0 with entries := [gmkaResolvedEntry] }, infoSec0, xfrmSec0, strgSec0, c7DebiSec]
      [(GKey.num 17, 0, 0)] [(7, 0, 0)] .offsetOutOfRange
      rfl rfl rfl rfl rfl rfl rfl rfl
  · exact claim_C7.2.1 [97, 0, 98, 0] [(GKey.num 17, 0, 0)] { mapped := .debug 17 0 10 0 } []
      17 0 10 0 (0, 0) .offsetOutOfRange [{ gmkaSec0 with entries := [gmkaResolvedEntry] }]
      rfl rfl rfl
  · exact claim_C7.2.2 4 legacyBadSecs infoLegacySecBad xfrmSec0 strgSec0 _ [97, 0, 98, 0]
      .offsetOutOfRange rfl rfl rfl rfl rfl rfl

/-! ## C9: the Strings reader -/

theorem char_toNat_valid (c : Char) :
    c.toNat < 0xD800 ∨ (0xE000 ≤ c.toNat ∧ c.toNat < 0x110000) := by
  have hval : c.toNat = c.val.toNat := rfl
  have h := c.valid
  simp only [UInt32.isValidChar, Nat.isValidChar] at h
  rw [hval]
  rcases h with h | ⟨h1, h2⟩
  · exact Or.inl h
  · exact Or.inr ⟨by omega, h2⟩

theorem utf8DecodeChar_append (c : Char) (r : List Nat) :
    utf8Decode (utf8EncodeChar c ++ r) = (utf8Decode r).map fun cs => c :: cs := by
  have hv := char_toNat_valid c
  by_cases h1 : c.toNat < 0x80
  · have henc : utf8EncodeChar c = [c.toNat] := by
      simp only [utf8EncodeChar]
      rw [if_pos h1]
    rw [henc]
    simp only [List.cons_append, List.nil_append]
    rw [utf8Decode.eq_def]
    dsimp only
    rw [if_pos h1]
    simp [Char.ofNat_toNat]
  · by_cases h2 : c.toNat < 0x800
    · have henc : utf8EncodeChar c = [0xC0 + c.toNat / 0x40, 0x80 + c.toNat % 0x40] := by
        simp only [utf8EncodeChar]
        rw [if_neg h1, if_pos h2]
      rw [henc]
      simp only [List.cons_append, List.nil_append]
      rw [utf8Decode.eq_def]
      dsimp only
      rw [if_neg (by omega), if_neg (by omega), if_pos (by omega),
        if_pos (show utf8Cont (0x80 + c.toNat % 0x40) = true by
          simp only [utf8Cont, decide_eq_true_eq]; omega)]
      have harith : (0xC0 + c.toNat / 0x40 - 0xC0) * 0x40 + (0x80 + c.toNat % 0x40 - 0x80) =
          c.toNat := by omega
      rw [harith, Char.ofNat_toNat]
    · by_cases h3 : c.toNat < 0x10000
      · have henc : utf8EncodeChar c =
            [0xE0 + c.toNat / 0x1000, 0x80 + (c.toNat / 0x40) % 0x40, 0x80 + c.toNat % 0x40] := by
          simp only [utf8EncodeChar]
          rw [if_neg h1, if_neg h2, if_pos h3]
        rw [henc]
        simp only [List.cons_append, List.nil_append]
        rw [utf8Decode.eq_def]
        dsimp only
        rw [if_neg (by omega), if_neg (by omega), if_neg (by omega), if_pos (by omega),
          if_pos (by simp only [utf8Cont, decide_eq_true_eq]; omega)]
        have harith : (0xE0 + c.toNat / 0x1000 - 0xE0) * 0x1000 +
            (0x80 + (c.toNat / 0x40) % 0x40 - 0x80) * 0x40 +
            (0x80 + c.toNat % 0x40 - 0x80) = c.toNat := by omega
        rw [harith, Char.ofNat_toNat]
      · have h4 : c.toNat < 0x110000 := by omega
        have henc : utf8EncodeChar c =
            [0xF0 + c.toNat / 0x40000, 0x80 + (c.toNat / 0x1000) % 0x40,
             0x80 + (c.toNat / 0x40) % 0x40, 0x80 + c.toNat % 0x40] := by
          simp only [utf8EncodeChar]
          rw [if_neg h1, if_neg h2, if_neg h3]
        rw [henc]
        simp only [List.cons_append, List.nil_append]
        rw [utf8Decode.eq_def]
        dsimp only
        rw [if_neg (by omega), if_neg (by omega), if_neg (by omega), if_neg (by omega),
          if_pos (by omega),
          if_pos (by simp only [utf8Cont, decide_eq_true_eq]; omega)]
        have harith : (0xF0 + c.toNat / 0x40000 - 0xF0) * 0x40000 +
            (0x80 + (c.toNat / 0x1000) % 0x40 - 0x80) * 0x1000 +
            (0x80 + (c.toNat / 0x40) % 0x40 - 0x80) * 0x40 +
            (0x80 + c.toNat % 0x40 - 0x80) = c.toNat := by omega
        rw [harith, Char.ofNat_toNat]

theorem utf8Decode_encode_append (t : List Char) (r : List Nat) :
    utf8Decode (utf8Encode t ++ r) = (utf8Decode r).map fun cs => t ++ cs := by
  induction t with
  | nil =>
    simp only [utf8Encode, List.map_nil, List.flatten_nil, List.nil_append]
    cases utf8Decode r <;> simp
  | cons c t ih =>
    have hsplit : utf8Encode (c :: t) = utf8EncodeChar c ++ utf8Encode t := by
      simp [utf8Encode]
    rw [hsplit, List.append_assoc, utf8DecodeChar_append, ih]
    cases utf8Decode r <;> simp

theorem utf8EncodeChar_pos {c : Char} (hc : c.toNat ≠ 0) : ∀ b ∈ utf8EncodeChar c, b ≠ 0 := by
  intro b hb
  simp only [utf8EncodeChar] at hb
  by_cases h1 : c.toNat < 0x80
  · rw [if_pos h1] at hb
    simp only [List.mem_singleton] at hb
    omega
  · by_cases h2 : c.toNat < 0x800
    · rw [if_neg h1, if_pos h2] at hb
      simp only [List.mem_cons, List.not_mem_nil, or_false] at hb
      rcases hb with hb | hb <;> omega
    · by_cases h3 : c.toNat < 0x10000
      · rw [if_neg h1, if_neg h2, if_pos h3] at hb
        simp only [List.mem_cons, List.not_mem_nil, or_false] at hb
        rcases hb with hb | hb | hb <;> omega
      · rw [if_neg h1, if_neg h2, if_neg h3] at hb
        simp only [List.mem_cons, List.not_mem_nil, or_false] at hb
        rcases hb with hb | hb | hb | hb <;> omega

theorem utf8Encode_pos {t : List Char} (ht : ∀ c ∈ t, c.toNat ≠ 0) :
    ∀ b ∈ utf8Encode t, b ≠ 0 := by
  intro b hb
  simp only [utf8Encode, List.mem_flatten, List.mem_map] at hb
  obtain ⟨l, ⟨c, hc, rfl⟩, hbl⟩ := hb
  exact utf8EncodeChar_pos (ht c hc) b hbl

theorem takeWhile_append_zero {l r : List Nat} (h : ∀ b ∈ l, b ≠ 0) :
    (l ++ 0 :: r).takeWhile (fun b => decide (b ≠ 0)) = l := by
  induction l with
  | nil => simp
  | cons a l ih =>
    have ha : a ≠ 0 := h a (by simp)
    simp only [List.cons_append, List.takeWhile_cons, decide_eq_true_eq]
    rw [if_pos ha, ih fun b hb => h b (by simp [hb])]

theorem takeWhile_ne_zero_self {l : List Nat} (h : ∀ b ∈ l, b ≠ 0) :
    l.takeWhile (fun b => decide (b ≠ 0)) = l := by
  induction l with
  | nil => rfl
  | cons a l ih =>
    have ha : a ≠ 0 := h a (by simp)
    simp only [List.takeWhile_cons, decide_eq_true_eq]
    rw [if_pos ha, ih fun b hb => h b (by simp [hb])]

theorem takeWhile_length_ne_of_zero {l : List Nat} (h : 0 ∈ l) :
    (l.takeWhile fun b => decide (b ≠ 0)).length ≠ l.length := by
  induction l with
  | nil => simp at h
  | cons a l ih =>
    by_cases ha : a = 0
    · subst ha
      simp [List.takeWhile_cons]
    · have h0 : 0 ∈ l := by
        rcases List.mem_cons.mp h with h | h
        · exact absurd h.symm ha
        · exact h
      simp only [List.takeWhile_cons, decide_eq_true_eq]
      rw [if_pos ha]
      simpa using ih h0

/-- C9.  The `Strings.read` round trip: if the blob holds, from offset `p`,
the UTF-8 encoding of a text `t` with no NUL character, followed by a zero
byte, then reading offset `p` returns exactly `t` (the concrete `"boss_01"`
instance is the first witness); reading fails with `offsetOutOfRange` when
no zero terminator exists at or after the offset (in particular when the
offset is outside the blob), and with `invalidEncoding` when the bytes
before the terminator are not valid UTF-8. -/
theorem claim_C9 :
    (∀ (buf : List Nat) (p : Nat) (t : List Char) (rest : List Nat),
      buf.drop p = utf8Encode t ++ 0 :: rest →
      (∀ c ∈ t, c.toNat ≠ 0) →
      Strings.read buf p = .ok t) ∧
    (∀ (buf : List Nat) (p : Nat), (∀ b ∈ buf.drop p, b ≠ 0) →
      Strings.read buf p = .error .offsetOutOfRange) ∧
    (∀ (buf : List Nat) (p : Nat),
      (∃ b ∈ buf.drop p, b = 0) →
      utf8Decode ((buf.drop p).takeWhile fun b => decide (b ≠ 0)) = none →
      Strings.read buf p = .error .invalidEncoding) := by
  refine ⟨?_, ?_, ?_⟩
  · intro buf p t rest hdrop ht
    have henc := utf8Encode_pos ht
    simp only [Strings.read, hdrop]
    rw [takeWhile_append_zero henc]
    rw [if_neg (by simp)]
    rw [show utf8Encode t = utf8Encode t ++ [] by simp, utf8Decode_encode_append]
    simp [utf8Decode]
  · intro buf p h
    simp only [Strings.read]
    rw [takeWhile_ne_zero_self h, if_pos rfl]
  · intro buf p hzero hbad
    obtain ⟨b, hb, rfl⟩ := hzero
    simp only [Strings.read]
    rw [if_neg (takeWhile_length_ne_of_zero hb), hbad]

/-- Witness for C9 at concrete inputs: reading `"boss_01"` terminated by a
zero byte at offset 0 returns exactly `"boss_01"`; a blob slice with no
terminator fails with `offsetOutOfRange`; an invalid lead byte before the
terminator fails with `invalidEncoding`. -/
theorem claim_C9_wit :
    Strings.read [0x62, 0x6F, 0x73, 0x73, 0x5F, 0x30, 0x31, 0] 0 =
      .ok ['b', 'o', 's', 's', '_', '0', '1'] ∧
    Strings.read [0x61, 0x62] 1 = .error .offsetOutOfRange ∧
    Strings.read [0xFF, 0] 0 = .error .invalidEncoding := by
  refine ⟨?_, ?_, ?_⟩
  · exact claim_C9.1 [0x62, 0x6F, 0x73, 0x73, 0x5F, 0x30, 0x31, 0] 0
      ['b', 'o', 's', 's', '_', '0', '1'] [] (by decide) (by decide)
  · exact claim_C9.2.1 [0x61, 0x62] 1 (by decide)
  · exact claim_C9.2.2 [0xFF, 0] 0 ⟨0, by decide, rfl⟩ (by decide)

/-! ## C10: decoding depends only on the declared-size prefix -/

theorem u32?_take_eq {a b : List Nat} {n : Nat} (h : a.take n = b.take n) {k : Nat}
    (hk : k + 4 ≤ n) : u32? a k = u32? b k := by
  have hdt : (a.drop k).take 4 = (b.drop k).take 4 := by
    have h1 : ((a.take n).drop k).take 4 = ((b.take n).drop k).take 4 := by rw [h]
    rw [List.drop_take, List.drop_take, List.take_take, List.take_take] at h1
    have hmin : min 4 (n - k) = 4 := by omega
    rwa [hmin] at h1
  simp only [u32?, hdt]

/-- C10 (amended).  Whenever the declared total size is at least 16 — so
that the four fixed header reads at bytes 0–15 fall inside it — any two
byte buffers agreeing on their first `declaredTotalSize` bytes decode
identically: past the header, the decoder truncates to `data[32:file_size]`
and never reads at or beyond the declared size.  (For a declared size below
16 the version/flags reads at bytes 8–15 happen *before* truncation and the
results can differ; see the counterexample.) -/
theorem claim_C10 :
    ∀ (ext : ExtRegistry) (fuel : Nat) (a b : List Nat) (n : Nat),
      (∀ x ∈ a, x < 256) → (∀ x ∈ b, x < 256) →
      u32? a 4 = some n → 16 ≤ n → a.take n = b.take n →
      Lvb.init ext fuel a = Lvb.init ext fuel b := by
  intro ext fuel a b n ha hb h4 h16 htake
  have h4b : u32? b 4 = some n := by rw [← u32?_take_eq htake (by omega)]; exact h4
  have h8 : u32? a 8 = u32? b 8 := u32?_take_eq htake (by omega)
  have h12 : u32? a 12 = u32? b 12 := u32?_take_eq htake (by omega)
  have hmag : a.take 4 = b.take 4 := by
    have h1 : (a.take n).take 4 = (b.take n).take 4 := by rw [htake]
    rw [List.take_take, List.take_take] at h1
    have hmin : min 4 n = 4 := by omega
    rwa [hmin] at h1
  have hwin : (a.take n).drop 32 = (b.take n).drop 32 := by rw [htake]
  simp only [Lvb.init]
  rw [if_neg (not_not_intro ha), if_neg (not_not_intro hb)]
  by_cases hassert : a.take 4 ≠ lvbMagic
  · rw [if_pos hassert, if_pos (by rwa [← hmag])]
  · rw [if_neg hassert, if_neg (by rwa [← hmag])]
    rw [h4, h4b]
    cases h8a : u32? a 8 with
    | none =>
      have h8b : u32? b 8 = none := by rw [← h8, h8a]
      rw [h8b]
    | some v =>
      have h8b : u32? b 8 = some v := by rw [← h8, h8a]
      rw [h8b]
      cases h12a : u32? a 12 with
      | none =>
        have h12b : u32? b 12 = none := by rw [← h12, h12a]
        rw [h12b]
      | some u =>
        have h12b : u32? b 12 = some u := by rw [← h12, h12a]
        rw [h12b]
        dsimp only
        rw [hwin]

/-- C10 counterexample.  Two byte buffers with declared total size 8 that
agree on their first 8 bytes (`c10A` is 8 bytes long; `c10B` pads it with
zero bytes): the version read at bytes 8–11 happens before truncation, so
the short buffer fails with `shortRead` (`struct.error`) while the padded
one walks zero sections and fails with `missingRequiredSection` — different
results, refuting the claim for every declared size. -/
theorem claim_C10_cex :
    u32? c10A 4 = some 8 ∧ u32? c10B 4 = some 8 ∧
    c10A.take 8 = c10B.take 8 ∧
    (∀ x ∈ c10A, x < 256) ∧ (∀ x ∈ c10B, x < 256) ∧
    Lvb.init extNone 1 c10A = some (.error .shortRead) ∧
    Lvb.init extNone 1 c10B = some (.error .missingRequiredSection) ∧
    Lvb.init extNone 1 c10A ≠ Lvb.init extNone 1 c10B := by
  refine ⟨rfl, rfl, rfl, by decide, by decide, rfl, rfl, ?_⟩
  intro h
  rw [show Lvb.init extNone 1 c10A = some (.error .shortRead) from rfl,
    show Lvb.init extNone 1 c10B = some (.error .missingRequiredSection) from rfl] at h
  exact absurd (Except.error.inj (Option.some.inj h)) (by decide)

/-- Witness for C10 (amended): appending a byte beyond `goodBuf`'s declared
total size 308 does not change the decode result. -/
theorem claim_C10_wit :
    Lvb.init extNone 400 goodBuf = Lvb.init extNone 400 (goodBuf ++ [0]) :=
  claim_C10 extNone 400 goodBuf (goodBuf ++ [0]) 308 (by decide) (by decide) rfl
    (by norm_num) (by decide)

end XenoLvb
